import Mathlib

/-!
Verification development for the unum frontend compiler
(`frontend/step-functions/sf.py`).

The compiler lowers an AWS Step Functions state machine (Task / Map /
Parallel states) into "unum IR": one configuration record per step, each
naming its successor and how the successor's input is assembled
(`Scalar`, `Map` fan-out, or a `Fan-in` barrier spec), plus a
`Checkpoint` flag set by a post-pass.

The embedding below follows the Python source closely:

* Python dicts created by `_translate_state_machine` are `Node` records
  stored in an arena (`Ctx.arena`); the Python code mutates those dicts
  through aliases held in the returned `Exit unum function` field, so the
  embedding addresses nodes by their arena index and mutation is
  `List.set` at that index.
* The module-global counters `unum_map_counter` / `unum_parallel_counter`
  are threaded through `Ctx`.
* Recursion is fuel-bounded; running out of fuel models Python's stack
  exhaustion and is an error distinct from the program's own failures.
* The bare `raise` in the Task case (neither `End == True` nor `Next`)
  is modelled as the error `Err.malformedGraph`.
* `get_state_unum_function_name` reads `function-arn.yaml`; that external
  mapping is passed in as the `resolver` association list (unum name →
  ARN, looked up by value as `list(keys)[list(values).index(...)]` does).
* `Node.synthetic` is a ghost provenance flag: it is `true` exactly for
  the records created at the `UnumMap` / `UnumMapSink` / `UnumParallel` /
  `UnumParallelSink` dict-literal sites, and is never read by any
  translated code; it only lets theorems quantify over barrier nodes.
-/

namespace Unum

inductive Err where
  | outOfFuel
  | missingState
  | malformedGraph
  | unresolvedReference
deriving DecidableEq, Repr

/-- The `"Next"` field of an IR config: a single successor name, or the
list of branch entry names emitted for a Parallel fan-out. -/
inductive NextField where
  | one (target : String)
  | many (targets : List String)
deriving DecidableEq, Repr

/-- The `"NextInput"` field of an IR config: `"Scalar"`, `"Map"`, or a
`{"Fan-in": {"Values": [...]}}` spec. -/
inductive NextInputField where
  | scalar
  | mapInput
  | fanIn (values : List String)
deriving DecidableEq, Repr

/-- One IR config dict. `synthetic` is a ghost provenance flag (see the
module comment); every other field mirrors a key of the Python dict. -/
structure Node where
  name : String
  next : Option NextField := none
  nextInput : Option NextInputField := none
  checkpoint : Option Bool := none
  synthetic : Bool := false
deriving DecidableEq, Repr

instance : Inhabited Node := ⟨{ name := "" }⟩

mutual
/-- A Step Functions state, as read by `_translate_state_machine`:
`state["Type"]` is Task / Map / Parallel, with the fields each case
accesses (`Resource`, `End`, `Next`, `Iterator`, `Branches`). -/
inductive SfState where
  | task (resource : String) (endFlag : Option Bool) (next : Option String) : SfState
  | mapState (iterator : StateMachine) (next : Option String) : SfState
  | parallel (branches : List StateMachine) (next : Option String) : SfState

/-- A state machine dict: `"StartAt"` plus the `"States"` mapping. -/
inductive StateMachine where
  | mk (startAt : String) (states : List (String × SfState)) : StateMachine
end

def StateMachine.startAt : StateMachine → String
  | .mk s _ => s

def StateMachine.states : StateMachine → List (String × SfState)
  | .mk _ l => l

/-- Is `needle` a contiguous sublist of the second argument? -/
def isInfixB (needle : List Char) : List Char → Bool
  | [] => needle.isEmpty
  | b :: bs => needle.isPrefixOf (b :: bs) || isInfixB needle bs

/-- Python's `needle in haystack` substring test. -/
def containsSubstr (needle haystack : String) : Bool :=
  isInfixB needle.data haystack.data

/-- `get_state_unum_function_name` (sf.py:25-47): an ARN resource is
reverse-looked-up in the external `function-arn.yaml` mapping
(`resolver`, unum name → ARN); any other resource string is returned
verbatim. A failed reverse lookup is Python's `ValueError` from
`.index`, modelled as `Err.unresolvedReference`. -/
def get_state_unum_function_name (resolver : List (String × String))
    (resource : String) : Except Err String :=
  if containsSubstr "arn:aws:lambda" resource then
    match resolver.find? (fun p => p.2 == resource) with
    | some p => .ok p.1
    | none => .error .unresolvedReference
  else
    .ok resource

/-- `state_machine["States"][state_name]`; a missing key is a `KeyError`,
modelled as `Err.missingState`. -/
def lookupState (sm : StateMachine) (stateName : String) : Option SfState :=
  (sm.states.find? (fun p => p.1 == stateName)).map Prod.snd

/-- The result quadruple `_translate_state_machine` returns; the two
function handles are arena indices of the aliased dicts. -/
structure TRes where
  stateName : String
  ir : List Nat
  entry : Nat
  exit : Nat
deriving DecidableEq, Repr

instance : Inhabited TRes := ⟨{ stateName := "", ir := [], entry := 0, exit := 0 }⟩

/-- Compilation context: the two module-global counters plus the arena of
every dict created so far. -/
structure Ctx where
  mapCounter : Nat
  parallelCounter : Nat
  arena : List Node
deriving DecidableEq, Repr

/-- Name of the arena node at index `i` (names are set at creation and
never mutated afterwards). -/
def nodeName (ctx : Ctx) (i : Nat) : String :=
  (ctx.arena.getD i default).name

/-- Allocate a fresh dict: returns its arena index. -/
def pushNode (ctx : Ctx) (nd : Node) : Nat × Ctx :=
  (ctx.arena.length, { ctx with arena := ctx.arena ++ [nd] })

/-- The in-place mutation `d["Next"] = ...; d["NextInput"] = ...`
performed through an alias, at arena index `i`. -/
def setNode (arena : List Node) (i : Nat) (nxt : NextField)
    (ni : NextInputField) : List Node :=
  arena.set i { arena.getD i default with next := some nxt, nextInput := some ni }

/-- The Parallel wiring loop (sf.py:157-164): every branch exit dict gets
the same `Next` / `NextInput`. -/
def wireNodes (ids : List Nat) (nxt : NextField) (ni : NextInputField)
    (arena : List Node) : List Node :=
  ids.foldl (fun a i => setNode a i nxt ni) arena

/-- `parallel_fan_in_vals` (sf.py:156):
`[f'{branches[i]["Exit unum function"]["Name"]}-unumIndex-{i}' for i in range(len(branches))]`. -/
def parallel_fan_in_vals (exitNames : List String) : List String :=
  (List.range exitNames.length).map
    (fun i => exitNames.getD i "" ++ "-unumIndex-" ++ Nat.repr i)

def mapEntryName (n : Nat) : String := "UnumMap" ++ Nat.repr n
def mapSinkName (n : Nat) : String := "UnumMapSink" ++ Nat.repr n
def parallelEntryName (n : Nat) : String := "UnumParallel" ++ Nat.repr n
def parallelSinkName (n : Nat) : String := "UnumParallelSink" ++ Nat.repr n

mutual
/-- `_translate_state_machine(state_name, state_machine)` (sf.py:50-185),
with the global counters and the dict arena threaded through `ctx`. -/
def translate_state_machine_aux (fuel : Nat) (resolver : List (String × String))
    (sm : StateMachine) (stateName : String) (ctx : Ctx) :
    Except Err (TRes × Ctx) :=
  match fuel with
  | 0 => .error .outOfFuel
  | fuel' + 1 =>
    match lookupState sm stateName with
    | none => .error .missingState
    | some (.task resource endFlag nextName) =>
      match get_state_unum_function_name resolver resource with
      | .error e => .error e
      | .ok unumFunctionName =>
        if endFlag = some true then
          let p := pushNode ctx { name := unumFunctionName }
          .ok ({ stateName := stateName, ir := [p.1], entry := p.1, exit := p.1 }, p.2)
        else
          match nextName with
          | none => .error .malformedGraph
          | some nxt =>
            match translate_state_machine_aux fuel' resolver sm nxt ctx with
            | .error e => .error e
            | .ok (nextRes, ctx1) =>
              let p := pushNode ctx1
                { name := unumFunctionName,
                  next := some (.one (nodeName ctx1 nextRes.entry)),
                  nextInput := some .scalar }
              .ok ({ stateName := stateName, ir := p.1 :: nextRes.ir,
                     entry := p.1, exit := nextRes.exit }, p.2)
    | some (.mapState iterator nextName) =>
      -- sf.py:94-139: the iterator is lowered first; only then is the
      -- barrier pair named from the current counter, which is then bumped.
      match translate_state_machine fuel' resolver iterator ctx with
      | .error e => .error e
      | .ok (iterRes, ctx1) =>
        let n := ctx1.mapCounter
        let pm := pushNode ctx1
          { name := mapEntryName n,
            next := some (.one (nodeName ctx1 iterRes.entry)),
            nextInput := some .mapInput,
            synthetic := true }
        let ps := pushNode pm.2 { name := mapSinkName n, synthetic := true }
        let ctx2 := { ps.2 with mapCounter := n + 1 }
        let ctx3 := { ctx2 with arena := (setNode ctx2.arena iterRes.exit
                        (.one (mapSinkName n))
                        (.fanIn [nodeName ctx1 iterRes.exit ++ "-unumIndex-*"])) }
        let ir0 := pm.1 :: iterRes.ir ++ [ps.1]
        match nextName with
        | none =>
          .ok ({ stateName := stateName, ir := ir0, entry := pm.1, exit := ps.1 }, ctx3)
        | some nxt =>
          match translate_state_machine_aux fuel' resolver sm nxt ctx3 with
          | .error e => .error e
          | .ok (nextRes, ctx4) =>
            let ctx5 := { ctx4 with arena := (setNode ctx4.arena ps.1
                            (.one (nodeName ctx4 nextRes.entry)) .scalar) }
            .ok ({ stateName := stateName, ir := ir0 ++ nextRes.ir,
                   entry := pm.1, exit := nextRes.exit }, ctx5)
    | some (.parallel branches nextName) =>
      -- sf.py:142-185: all branches are lowered first; then the barrier
      -- pair is named from the current counter, which is then bumped.
      match translate_branches fuel' resolver branches ctx with
      | .error e => .error e
      | .ok (rs, ctx1) =>
        let n := ctx1.parallelCounter
        let pe := pushNode ctx1
          { name := parallelEntryName n,
            next := some (.many (rs.map (fun r => nodeName ctx1 r.entry))),
            nextInput := some .scalar,
            synthetic := true }
        let ps := pushNode pe.2 { name := parallelSinkName n, synthetic := true }
        let ctx2 := { ps.2 with parallelCounter := n + 1 }
        let vals := parallel_fan_in_vals (rs.map (fun r => nodeName ctx1 r.exit))
        let ctx3 := { ctx2 with arena := (wireNodes (rs.map (fun r => r.exit))
                        (.one (parallelSinkName n)) (.fanIn vals) ctx2.arena) }
        let ir0 := pe.1 :: (rs.map TRes.ir).flatten ++ [ps.1]
        match nextName with
        | none =>
          .ok ({ stateName := stateName, ir := ir0, entry := pe.1, exit := ps.1 }, ctx3)
        | some nxt =>
          match translate_state_machine_aux fuel' resolver sm nxt ctx3 with
          | .error e => .error e
          | .ok (nextRes, ctx4) =>
            let ctx5 := { ctx4 with arena := (setNode ctx4.arena ps.1
                            (.one (nodeName ctx4 nextRes.entry)) .scalar) }
            .ok ({ stateName := stateName, ir := ir0 ++ nextRes.ir,
                   entry := pe.1, exit := nextRes.exit }, ctx5)

/-- `translate_state_machine(state_machine)` (sf.py:188-202): looks up the
entry state (a missing `StartAt` key is a `KeyError`) and recurses. -/
def translate_state_machine (fuel : Nat) (resolver : List (String × String))
    (sm : StateMachine) (ctx : Ctx) : Except Err (TRes × Ctx) :=
  match fuel with
  | 0 => .error .outOfFuel
  | fuel' + 1 =>
    match lookupState sm sm.startAt with
    | none => .error .missingState
    | some _ => translate_state_machine_aux fuel' resolver sm sm.startAt ctx

/-- The list comprehension
`[translate_state_machine(b) for b in state["Branches"]]` (sf.py:143),
left to right, threading the global counters / arena. -/
def translate_branches (fuel : Nat) (resolver : List (String × String))
    (branches : List StateMachine) (ctx : Ctx) :
    Except Err (List TRes × Ctx) :=
  match branches with
  | [] => .ok ([], ctx)
  | b :: bs =>
    match fuel with
    | 0 => .error .outOfFuel
    | fuel' + 1 =>
      match translate_state_machine fuel' resolver b ctx with
      | .error e => .error e
      | .ok (r, ctx1) =>
        match translate_branches fuel' resolver bs ctx1 with
        | .error e => .error e
        | .ok (rs, ctx2) => .ok (r :: rs, ctx2)
end

/-- Does a config's `NextInput` hold a `"Fan-in"` key? (The string values
`"Scalar"` / `"Map"` do not contain it as a substring, so the Python test
`"Fan-in" in c["NextInput"]` is exactly this discrimination.) -/
def isFanInInput : Option NextInputField → Bool
  | some (.fanIn _) => true
  | _ => false

/-- The checkpoint policy pass in `main` (sf.py:230-234). -/
def checkpoint_pass (templateDefault : Bool) (ir : List Node) : List Node :=
  ir.map (fun c =>
    if isFanInInput c.nextInput then { c with checkpoint := some true }
    else { c with checkpoint := some templateDefault })

/-- The two module-global counters, which persist across runs within one
process while the dict arena is rebuilt per run. -/
structure Counters where
  mapC : Nat
  parallelC : Nat
deriving DecidableEq, Repr

/-- One full run of `main`'s compilation phase: translate the machine,
then apply the checkpoint pass to the emitted config list. -/
def compileRun (fuel : Nat) (resolver : List (String × String))
    (templateDefault : Bool) (sm : StateMachine) (cnt : Counters) :
    Except Err (List Node × Counters) :=
  match translate_state_machine fuel resolver sm
      { mapCounter := cnt.mapC, parallelCounter := cnt.parallelC, arena := [] } with
  | .error e => .error e
  | .ok (res, ctx) =>
    .ok (checkpoint_pass templateDefault (res.ir.map (fun i => ctx.arena.getD i default)),
         { mapC := ctx.mapCounter, parallelC := ctx.parallelCounter })

def isOkE {α β : Type} : Except α β → Bool
  | .ok _ => true
  | .error _ => false

def runIR {α : Type} : Except α (List Node × Counters) → List Node
  | .ok p => p.1
  | .error _ => []

/-- Names of the ghost-flagged synthetic barrier nodes of an IR list. -/
def synNames (ns : List Node) : List String :=
  (ns.filter (fun nd => nd.synthetic)).map Node.name

deriving instance DecidableEq for Except

/-! Concrete state machines used as test inputs. -/

/-- The chain `A -> B -> C(End)` with resources `f1`, `f2`, `f3`. -/
def exampleChain3 : StateMachine :=
  .mk "A" [("A", .task "f1" none (some "B")),
           ("B", .task "f2" none (some "C")),
           ("C", .task "f3" (some true) none)]

/-- The IR both runs of `exampleChain3` produce (default policy `false`). -/
def exampleChain3IR : List Node :=
  [{ name := "f1", next := some (.one "f2"), nextInput := some .scalar,
     checkpoint := some false },
   { name := "f2", next := some (.one "f3"), nextInput := some .scalar,
     checkpoint := some false },
   { name := "f3", checkpoint := some false }]

/-- Scenario 2's Map: iterator is the single terminal Task `f3`. -/
def exampleIterF3 : StateMachine := .mk "f3" [("f3", .task "f3" (some true) none)]

def exampleScen2 : StateMachine := .mk "M" [("M", .mapState exampleIterF3 none)]

/-- Scenario 2's IR when the configured default policy is `true`. -/
def exampleScen2IR : List Node :=
  [{ name := "UnumMap0", next := some (.one "f3"), nextInput := some .mapInput,
     checkpoint := some true, synthetic := true },
   { name := "f3", next := some (.one "UnumMapSink0"),
     nextInput := some (.fanIn ["f3-unumIndex-*"]), checkpoint := some true },
   { name := "UnumMapSink0", checkpoint := some true, synthetic := true }]

/-- Scenario 3's Parallel: two branches, terminal Tasks `f4` and `f5`. -/
def exampleBrF4 : StateMachine := .mk "f4" [("f4", .task "f4" (some true) none)]

def exampleBrF5 : StateMachine := .mk "f5" [("f5", .task "f5" (some true) none)]

def exampleScen3 : StateMachine :=
  .mk "P" [("P", .parallel [exampleBrF4, exampleBrF5] none)]

/-- A Map whose iterator is itself a Map over the terminal Task `f6`. -/
def exampleInnerMap : StateMachine :=
  .mk "IM" [("IM", .mapState (StateMachine.mk "f6" [("f6", .task "f6" (some true) none)]) none)]

def exampleNestedMap : StateMachine := .mk "OM" [("OM", .mapState exampleInnerMap none)]

/-- A Parallel state with an empty branch list. -/
def exampleEmptyParallel : StateMachine := .mk "P" [("P", .parallel [] none)]

/-- Two Task states sharing the resource string `f1`. -/
def exampleDupTasks : StateMachine :=
  .mk "A" [("A", .task "f1" none (some "B")),
           ("B", .task "f1" (some true) none)]

/-- A Task with neither `End == True` nor `Next`. -/
def exampleStuckTask : StateMachine := .mk "A" [("A", .task "f9" none none)]

/-- Numeric value of a decimal digit character. -/
def digitValN (c : Char) : Nat := c.toNat - 48

/-- Value of a big-endian decimal digit string. -/
def valOfDigits (l : List Char) : Nat :=
  l.foldl (fun a c => 10 * a + digitValN c) 0

/-- The two names one Map barrier allocation produces. -/
def mapPairNames (k : Nat) : List String := [mapEntryName k, mapSinkName k]

/-- The two names one Parallel barrier allocation produces. -/
def parallelPairNames (k : Nat) : List String := [parallelEntryName k, parallelSinkName k]

/-- All names `f` produces for counter values in `[a, b)`. -/
def rangeNames (f : Nat → List String) (a b : Nat) : List String :=
  ((List.range' a (b - a)).map f).flatten

/-- The nested-Map example's compiled IR (default policy `false`). -/
def exampleNestedIR : List Node :=
  [{ name := "UnumMap1", next := some (.one "UnumMap0"), nextInput := some .mapInput,
     checkpoint := some false, synthetic := true },
   { name := "UnumMap0", next := some (.one "f6"), nextInput := some .mapInput,
     checkpoint := some false, synthetic := true },
   { name := "f6", next := some (.one "UnumMapSink0"),
     nextInput := some (.fanIn ["f6-unumIndex-*"]), checkpoint := some true },
   { name := "UnumMapSink0", next := some (.one "UnumMapSink1"),
     nextInput := some (.fanIn ["UnumMapSink0-unumIndex-*"]),
     checkpoint := some true, synthetic := true },
   { name := "UnumMapSink1", checkpoint := some false, synthetic := true }]

/-! Intermediate translation values of the example machines, used by the
witness theorems. -/

def exampleScen3Rs : List TRes :=
  [{ stateName := "f4", ir := [0], entry := 0, exit := 0 },
   { stateName := "f5", ir := [1], entry := 1, exit := 1 }]

def exampleScen3Ctx1 : Ctx :=
  { mapCounter := 0, parallelCounter := 0,
    arena := [{ name := "f4" }, { name := "f5" }] }

def exampleScen3Res : TRes :=
  { stateName := "P", ir := [2, 0, 1, 3], entry := 2, exit := 3 }

def exampleScen3CtxF : Ctx :=
  { mapCounter := 0, parallelCounter := 1,
    arena := [{ name := "f4", next := some (.one "UnumParallelSink0"),
                nextInput := some (.fanIn ["f4-unumIndex-0", "f5-unumIndex-1"]) },
              { name := "f5", next := some (.one "UnumParallelSink0"),
                nextInput := some (.fanIn ["f4-unumIndex-0", "f5-unumIndex-1"]) },
              { name := "UnumParallel0", next := some (.many ["f4", "f5"]),
                nextInput := some .scalar, synthetic := true },
              { name := "UnumParallelSink0", synthetic := true }] }

def exampleScen2Ctx1 : Ctx :=
  { mapCounter := 0, parallelCounter := 0, arena := [{ name := "f3" }] }

def exampleScen2Res : TRes :=
  { stateName := "M", ir := [1, 0, 2], entry := 1, exit := 2 }

def exampleScen2CtxF : Ctx :=
  { mapCounter := 1, parallelCounter := 0,
    arena := [{ name := "f3", next := some (.one "UnumMapSink0"),
                nextInput := some (.fanIn ["f3-unumIndex-*"]) },
              { name := "UnumMap0", next := some (.one "f3"),
                nextInput := some .mapInput, synthetic := true },
              { name := "UnumMapSink0", synthetic := true }] }

def exampleNestedCtx1 : Ctx :=
  { mapCounter := 1, parallelCounter := 0,
    arena := [{ name := "f6", next := some (.one "UnumMapSink0"),
                nextInput := some (.fanIn ["f6-unumIndex-*"]) },
              { name := "UnumMap0", next := some (.one "f6"),
                nextInput := some .mapInput, synthetic := true },
              { name := "UnumMapSink0", synthetic := true }] }

def exampleNestedIterRes : TRes :=
  { stateName := "IM", ir := [1, 0, 2], entry := 1, exit := 2 }

def exampleNestedRes : TRes :=
  { stateName := "OM", ir := [3, 1, 0, 2, 4], entry := 3, exit := 4 }

def exampleNestedCtxF : Ctx :=
  { mapCounter := 2, parallelCounter := 0,
    arena := [{ name := "f6", next := some (.one "UnumMapSink0"),
                nextInput := some (.fanIn ["f6-unumIndex-*"]) },
              { name := "UnumMap0", next := some (.one "f6"),
                nextInput := some .mapInput, synthetic := true },
              { name := "UnumMapSink0", next := some (.one "UnumMapSink1"),
                nextInput := some (.fanIn ["UnumMapSink0-unumIndex-*"]), synthetic := true },
              { name := "UnumMap1", next := some (.one "UnumMap0"),
                nextInput := some .mapInput, synthetic := true },
              { name := "UnumMapSink1", synthetic := true }] }

/-- A node carrying a Fan-in `NextInput`, before the checkpoint pass. -/
def exampleFanInNode : Node :=
  { name := "f3", nextInput := some (.fanIn ["f3-unumIndex-*"]) }

/-- The same node after the checkpoint pass forced its flag. -/
def exampleFanInNodeCk : Node :=
  { name := "f3", nextInput := some (.fanIn ["f3-unumIndex-*"]), checkpoint := some true }

/-- Invariant relating a call's input context, result and output context:
the arena only grows, old entries are untouched (every in-call mutation
hits an index allocated by the call itself), counters never decrease, all
result handles point into the freshly allocated region, and the returned
exit node's `Next` / `NextInput` are still unset. -/
structure ArenaInv (ctx : Ctx) (res : TRes) (ctx' : Ctx) : Prop where
  lenLe : ctx.arena.length ≤ ctx'.arena.length
  mapLe : ctx.mapCounter ≤ ctx'.mapCounter
  parLe : ctx.parallelCounter ≤ ctx'.parallelCounter
  frame : ∀ i, i < ctx.arena.length →
    ctx'.arena.getD i default = ctx.arena.getD i default
  entryLb : ctx.arena.length ≤ res.entry
  entryUb : res.entry < ctx'.arena.length
  exitLb : ctx.arena.length ≤ res.exit
  exitUb : res.exit < ctx'.arena.length
  irLb : ∀ j ∈ res.ir, ctx.arena.length ≤ j
  irUb : ∀ j ∈ res.ir, j < ctx'.arena.length
  exitOpenNext : (ctx'.arena.getD res.exit default).next = none
  exitOpenNI : (ctx'.arena.getD res.exit default).nextInput = none

/-- The same invariant for the branch-list translation. -/
structure BranchesInv (ctx : Ctx) (rs : List TRes) (ctx' : Ctx) : Prop where
  lenLe : ctx.arena.length ≤ ctx'.arena.length
  mapLe : ctx.mapCounter ≤ ctx'.mapCounter
  parLe : ctx.parallelCounter ≤ ctx'.parallelCounter
  frame : ∀ i, i < ctx.arena.length →
    ctx'.arena.getD i default = ctx.arena.getD i default
  entryLb : ∀ r ∈ rs, ctx.arena.length ≤ r.entry
  entryUb : ∀ r ∈ rs, r.entry < ctx'.arena.length
  exitLb : ∀ r ∈ rs, ctx.arena.length ≤ r.exit
  exitUb : ∀ r ∈ rs, r.exit < ctx'.arena.length
  irLb : ∀ r ∈ rs, ∀ j ∈ r.ir, ctx.arena.length ≤ j
  irUb : ∀ r ∈ rs, ∀ j ∈ r.ir, j < ctx'.arena.length
  exOpenNext : ∀ r ∈ rs, (ctx'.arena.getD r.exit default).next = none
  exOpenNI : ∀ r ∈ rs, (ctx'.arena.getD r.exit default).nextInput = none

/-! ### Arena access lemmas -/

theorem nodeGetD_append_lt (l l' : List Node) (i : Nat) (h : i < l.length) :
    (l ++ l').getD i default = l.getD i default := by
  simp [List.getD_eq_getElem?_getD, List.getElem?_append_left h]

theorem nodeGetD_concat_self (l : List Node) (nd : Node) :
    (l ++ [nd]).getD l.length default = nd := by
  simp [List.getD_eq_getElem?_getD, List.getElem?_concat_length]

theorem setNode_length (arena : List Node) (i : Nat) (nxt : NextField)
    (ni : NextInputField) : (setNode arena i nxt ni).length = arena.length := by
  simp [setNode]

theorem setNode_getD_ne (arena : List Node) (i j : Nat) (nxt : NextField)
    (ni : NextInputField) (h : i ≠ j) :
    (setNode arena i nxt ni).getD j default = arena.getD j default := by
  simp [setNode, List.getD_eq_getElem?_getD, List.getElem?_set_ne h]

theorem setNode_getD_self (arena : List Node) (i : Nat) (nxt : NextField)
    (ni : NextInputField) (h : i < arena.length) :
    (setNode arena i nxt ni).getD i default =
      { arena.getD i default with next := some nxt, nextInput := some ni } := by
  simp [setNode, List.getD_eq_getElem?_getD, List.getElem?_set_eq_of_lt _ h]

theorem wireNodes_nil (nxt : NextField) (ni : NextInputField) (arena : List Node) :
    wireNodes [] nxt ni arena = arena := rfl

theorem wireNodes_cons (k : Nat) (ks : List Nat) (nxt : NextField)
    (ni : NextInputField) (arena : List Node) :
    wireNodes (k :: ks) nxt ni arena = wireNodes ks nxt ni (setNode arena k nxt ni) := rfl

theorem wireNodes_length (ids : List Nat) (nxt : NextField) (ni : NextInputField)
    (arena : List Node) : (wireNodes ids nxt ni arena).length = arena.length := by
  induction ids generalizing arena with
  | nil => rfl
  | cons k ks ih => rw [wireNodes_cons, ih, setNode_length]

theorem wireNodes_getD_notMem (ids : List Nat) (nxt : NextField) (ni : NextInputField)
    (arena : List Node) (j : Nat) (h : j ∉ ids) :
    (wireNodes ids nxt ni arena).getD j default = arena.getD j default := by
  induction ids generalizing arena with
  | nil => rfl
  | cons k ks ih =>
    have hk : k ≠ j := by rintro rfl; exact h (List.mem_cons_self k ks)
    rw [wireNodes_cons, ih _ (fun hm => h (List.mem_cons_of_mem _ hm)),
      setNode_getD_ne _ _ _ _ _ hk]

theorem wireNodes_getD_mem (ids : List Nat) (nxt : NextField) (ni : NextInputField)
    (arena : List Node) (j : Nat) (hj : j ∈ ids) (hlen : j < arena.length) :
    (wireNodes ids nxt ni arena).getD j default =
      { arena.getD j default with next := some nxt, nextInput := some ni } := by
  induction ids generalizing arena with
  | nil => cases hj
  | cons k ks ih =>
    rw [wireNodes_cons]
    by_cases hks : j ∈ ks
    · rw [ih _ hks (by rw [setNode_length]; exact hlen)]
      by_cases hk : k = j
      · subst hk; rw [setNode_getD_self _ _ _ _ hlen]
      · rw [setNode_getD_ne _ _ _ _ _ hk]
    · have hk : k = j := by
        rcases List.mem_cons.1 hj with h | h
        · exact h.symm
        · exact absurd h hks
      subst hk
      rw [wireNodes_getD_notMem _ _ _ _ _ hks, setNode_getD_self _ _ _ _ hlen]

/-! ### The arena invariant, by mutual induction on fuel -/

theorem push_len (l : List Node) (nd : Node) : (l ++ [nd]).length = l.length + 1 := by
  simp

theorem branchesInv_nil (ctx : Ctx) : BranchesInv ctx [] ctx where
  lenLe := le_refl _
  mapLe := le_refl _
  parLe := le_refl _
  frame := fun _ _ => rfl
  entryLb := by intro r hr; cases hr
  entryUb := by intro r hr; cases hr
  exitLb := by intro r hr; cases hr
  exitUb := by intro r hr; cases hr
  irLb := by intro r hr; cases hr
  irUb := by intro r hr; cases hr
  exOpenNext := by intro r hr; cases hr
  exOpenNI := by intro r hr; cases hr

theorem branchesInv_cons {ctx ctx1 ctx2 : Ctx} {r : TRes} {rs : List TRes}
    (A : ArenaInv ctx r ctx1) (B : BranchesInv ctx1 rs ctx2) :
    BranchesInv ctx (r :: rs) ctx2 where
  lenLe := le_trans A.lenLe B.lenLe
  mapLe := le_trans A.mapLe B.mapLe
  parLe := le_trans A.parLe B.parLe
  frame := fun i hi => by
    rw [B.frame i (lt_of_lt_of_le hi A.lenLe), A.frame i hi]
  entryLb := by
    intro t ht
    rcases List.mem_cons.1 ht with rfl | ht
    · exact A.entryLb
    · exact le_trans A.lenLe (B.entryLb t ht)
  entryUb := by
    intro t ht
    rcases List.mem_cons.1 ht with rfl | ht
    · exact lt_of_lt_of_le A.entryUb B.lenLe
    · exact B.entryUb t ht
  exitLb := by
    intro t ht
    rcases List.mem_cons.1 ht with rfl | ht
    · exact A.exitLb
    · exact le_trans A.lenLe (B.exitLb t ht)
  exitUb := by
    intro t ht
    rcases List.mem_cons.1 ht with rfl | ht
    · exact lt_of_lt_of_le A.exitUb B.lenLe
    · exact B.exitUb t ht
  irLb := by
    intro t ht
    rcases List.mem_cons.1 ht with rfl | ht
    · exact A.irLb
    · exact fun j hj => le_trans A.lenLe (B.irLb t ht j hj)
  irUb := by
    intro t ht
    rcases List.mem_cons.1 ht with rfl | ht
    · exact fun j hj => lt_of_lt_of_le (A.irUb j hj) B.lenLe
    · exact B.irUb t ht
  exOpenNext := by
    intro t ht
    rcases List.mem_cons.1 ht with rfl | ht
    · rw [B.frame t.exit A.exitUb]; exact A.exitOpenNext
    · exact B.exOpenNext t ht
  exOpenNI := by
    intro t ht
    rcases List.mem_cons.1 ht with rfl | ht
    · rw [B.frame t.exit A.exitUb]; exact A.exitOpenNI
    · exact B.exOpenNI t ht

theorem translateInvAll : ∀ fuel : Nat,
    (∀ (resolver : List (String × String)) (sm : StateMachine) (nm : String)
        (ctx : Ctx) (res : TRes) (ctx' : Ctx),
        translate_state_machine_aux fuel resolver sm nm ctx = .ok (res, ctx') →
        ArenaInv ctx res ctx') ∧
    (∀ (resolver : List (String × String)) (sm : StateMachine)
        (ctx : Ctx) (res : TRes) (ctx' : Ctx),
        translate_state_machine fuel resolver sm ctx = .ok (res, ctx') →
        ArenaInv ctx res ctx') ∧
    (∀ (resolver : List (String × String)) (bs : List StateMachine)
        (ctx : Ctx) (rs : List TRes) (ctx' : Ctx),
        translate_branches fuel resolver bs ctx = .ok (rs, ctx') →
        BranchesInv ctx rs ctx') := by
  intro fuel
  induction fuel with
  | zero =>
    refine ⟨?_, ?_, ?_⟩
    · intro resolver sm nm ctx res ctx' h; cases h
    · intro resolver sm ctx res ctx' h; cases h
    · intro resolver bs ctx rs ctx' h
      cases bs with
      | nil =>
        simp only [translate_branches] at h
        rw [Except.ok.injEq, Prod.mk.injEq] at h
        obtain ⟨rfl, rfl⟩ := h
        exact branchesInv_nil ctx
      | cons b bs' => cases h
  | succ fuel ih =>
    obtain ⟨ihAux, ihMach, ihBr⟩ := ih
    refine ⟨?_, ?_, ?_⟩
    · -- translate_state_machine_aux
      intro resolver sm nm ctx res ctx' h
      simp only [translate_state_machine_aux] at h
      cases hl : lookupState sm nm with
      | none => simp only [hl] at h; cases h
      | some st =>
        simp only [hl] at h
        cases st with
        | task resource endFlag nextName =>
          cases hr : get_state_unum_function_name resolver resource with
          | error e => simp only [hr] at h; cases h
          | ok uname =>
            simp only [hr] at h
            by_cases hend : endFlag = some true
            · rw [if_pos hend] at h
              simp only [pushNode] at h
              rw [Except.ok.injEq, Prod.mk.injEq] at h
              obtain ⟨rfl, rfl⟩ := h
              refine { lenLe := ?_, mapLe := le_refl _, parLe := le_refl _,
                       frame := fun i hi => nodeGetD_append_lt _ _ _ hi,
                       entryLb := le_refl _, entryUb := ?_,
                       exitLb := le_refl _, exitUb := ?_,
                       irLb := ?_, irUb := ?_,
                       exitOpenNext := ?_, exitOpenNI := ?_ }
              · dsimp only; rw [push_len]; omega
              · dsimp only; rw [push_len]; omega
              · dsimp only; rw [push_len]; omega
              · intro j hj
                rcases List.mem_singleton.1 hj with rfl
                exact le_refl _
              · intro j hj
                rcases List.mem_singleton.1 hj with rfl
                dsimp only; rw [push_len]; omega
              · dsimp only; rw [nodeGetD_concat_self]
              · dsimp only; rw [nodeGetD_concat_self]
            · rw [if_neg hend] at h
              cases nextName with
              | none => cases h
              | some nxt =>
                cases hrec : translate_state_machine_aux fuel resolver sm nxt ctx with
                | error e => simp only [hrec] at h; cases h
                | ok p =>
                  obtain ⟨nextRes, ctx1⟩ := p
                  simp only [hrec, pushNode] at h
                  rw [Except.ok.injEq, Prod.mk.injEq] at h
                  obtain ⟨rfl, rfl⟩ := h
                  have A := ihAux resolver sm nxt ctx nextRes ctx1 hrec
                  refine { lenLe := ?_, mapLe := A.mapLe, parLe := A.parLe,
                           frame := ?_,
                           entryLb := A.lenLe, entryUb := ?_,
                           exitLb := A.exitLb, exitUb := ?_,
                           irLb := ?_, irUb := ?_,
                           exitOpenNext := ?_, exitOpenNI := ?_ }
                  · dsimp only; rw [push_len]
                    have := A.lenLe; omega
                  · intro i hi
                    dsimp only
                    rw [nodeGetD_append_lt _ _ _ (lt_of_lt_of_le hi A.lenLe),
                      A.frame i hi]
                  · dsimp only; rw [push_len]; omega
                  · dsimp only; rw [push_len]
                    have := A.exitUb; omega
                  · intro j hj
                    rcases List.mem_cons.1 hj with rfl | hj
                    · exact A.lenLe
                    · exact A.irLb j hj
                  · intro j hj
                    dsimp only at hj ⊢
                    rw [push_len]
                    rcases List.mem_cons.1 hj with rfl | hj
                    · omega
                    · have := A.irUb j hj; omega
                  · dsimp only
                    rw [nodeGetD_append_lt _ _ _ A.exitUb]
                    exact A.exitOpenNext
                  · dsimp only
                    rw [nodeGetD_append_lt _ _ _ A.exitUb]
                    exact A.exitOpenNI
        | mapState iterator nextName =>
          cases hm : translate_state_machine fuel resolver iterator ctx with
          | error e => simp only [hm] at h; cases h
          | ok p =>
            obtain ⟨iterRes, ctx1⟩ := p
            simp only [hm, pushNode] at h
            have A := ihMach resolver iterator ctx iterRes ctx1 hm
            have hLe := A.lenLe
            have hExL := A.exitLb
            have hExU := A.exitUb
            have hAm := A.mapLe
            have hAp := A.parLe
            cases nextName with
            | none =>
              dsimp only at h
              rw [Except.ok.injEq, Prod.mk.injEq] at h
              obtain ⟨rfl, rfl⟩ := h
              generalize hME : ({ name := mapEntryName ctx1.mapCounter, next := some (.one (nodeName ctx1 iterRes.entry)), nextInput := some .mapInput, synthetic := true } : Node) = ME
              generalize hMS : ({ name := mapSinkName ctx1.mapCounter, synthetic := true } : Node) = MS
              have e2 : (ctx1.arena ++ [ME]).length = ctx1.arena.length + 1 := push_len _ _
              refine { lenLe := ?_, mapLe := ?_, parLe := ?_,
                       frame := ?_, entryLb := hLe, entryUb := ?_,
                       exitLb := ?_, exitUb := ?_,
                       irLb := ?_, irUb := ?_,
                       exitOpenNext := ?_, exitOpenNI := ?_ }
              · dsimp only; rw [setNode_length, push_len]; omega
              · dsimp only; omega
              · dsimp only; omega
              · intro i hi
                dsimp only
                have h1 : iterRes.exit ≠ i := by omega
                have h2 : i < (ctx1.arena ++ [ME]).length := by omega
                rw [setNode_getD_ne _ _ _ _ _ h1, nodeGetD_append_lt _ _ _ h2,
                  nodeGetD_append_lt _ _ _ (lt_of_lt_of_le hi hLe), A.frame i hi]
              · dsimp only; rw [setNode_length, push_len]; omega
              · dsimp only; omega
              · dsimp only; rw [setNode_length, push_len, push_len]; omega
              · intro j hj
                dsimp only at hj ⊢
                rcases List.mem_cons.1 hj with rfl | hj
                · exact hLe
                · rcases List.mem_append.1 hj with hj | hj
                  · exact A.irLb j hj
                  · rcases List.mem_singleton.1 hj with rfl
                    omega
              · intro j hj
                dsimp only at hj ⊢
                rw [setNode_length, push_len]
                rcases List.mem_cons.1 hj with rfl | hj
                · omega
                · rcases List.mem_append.1 hj with hj | hj
                  · have := A.irUb j hj; omega
                  · rcases List.mem_singleton.1 hj with rfl
                    omega
              · dsimp only
                have h1 : iterRes.exit ≠ (ctx1.arena ++ [ME]).length := by omega
                rw [setNode_getD_ne _ _ _ _ _ h1, nodeGetD_concat_self, ← hMS]
              · dsimp only
                have h1 : iterRes.exit ≠ (ctx1.arena ++ [ME]).length := by omega
                rw [setNode_getD_ne _ _ _ _ _ h1, nodeGetD_concat_self, ← hMS]
            | some nxt =>
              dsimp only at h
              split at h
              · cases h
              · rename_i nextRes ctx4 heq
                revert heq h
                generalize hME : ({ name := mapEntryName ctx1.mapCounter, next := some (.one (nodeName ctx1 iterRes.entry)), nextInput := some .mapInput, synthetic := true } : Node) = ME
                generalize hMS : ({ name := mapSinkName ctx1.mapCounter, synthetic := true } : Node) = MS
                generalize hNX : NextField.one (mapSinkName ctx1.mapCounter) = NX
                generalize hNI : NextInputField.fanIn [nodeName ctx1 iterRes.exit ++ "-unumIndex-*"] = NI
                intro heq h
                have B := ihAux resolver sm nxt _ nextRes ctx4 heq
                rw [Except.ok.injEq, Prod.mk.injEq] at h
                obtain ⟨rfl, rfl⟩ := h
                have e2 : (ctx1.arena ++ [ME]).length = ctx1.arena.length + 1 := push_len _ _
                have e3 : (setNode ((ctx1.arena ++ [ME]) ++ [MS]) iterRes.exit NX NI).length = ctx1.arena.length + 1 + 1 := by
                  rw [setNode_length, push_len, e2]
                have hBlen := B.lenLe
                have hBexL := B.exitLb
                have hBexU := B.exitUb
                have hBmap := B.mapLe
                have hBpar := B.parLe
                have hBfr := B.frame
                dsimp only at hBlen hBexL hBexU hBmap hBpar hBfr
                rw [e3] at hBlen hBexL hBfr
                refine { lenLe := ?_, mapLe := ?_, parLe := ?_,
                         frame := ?_, entryLb := hLe, entryUb := ?_,
                         exitLb := ?_, exitUb := ?_,
                         irLb := ?_, irUb := ?_,
                         exitOpenNext := ?_, exitOpenNI := ?_ }
                · dsimp only; rw [setNode_length]; omega
                · dsimp only; omega
                · dsimp only; omega
                · intro i hi
                  dsimp only
                  have h1 : (ctx1.arena ++ [ME]).length ≠ i := by omega
                  have h2 : iterRes.exit ≠ i := by omega
                  have h3 : i < (ctx1.arena ++ [ME]).length := by omega
                  rw [setNode_getD_ne _ _ _ _ _ h1, hBfr i (by omega),
                    setNode_getD_ne _ _ _ _ _ h2, nodeGetD_append_lt _ _ _ h3,
                    nodeGetD_append_lt _ _ _ (lt_of_lt_of_le hi hLe), A.frame i hi]
                · dsimp only; rw [setNode_length]; omega
                · dsimp only; omega
                · dsimp only; rw [setNode_length]; omega
                · intro j hj
                  dsimp only at hj ⊢
                  rcases List.mem_append.1 hj with hj | hj
                  · rcases List.mem_cons.1 hj with rfl | hj
                    · exact hLe
                    · rcases List.mem_append.1 hj with hj | hj
                      · exact A.irLb j hj
                      · rcases List.mem_singleton.1 hj with rfl
                        omega
                  · have := B.irLb j hj
                    dsimp only at this
                    rw [e3] at this
                    omega
                · intro j hj
                  dsimp only at hj ⊢
                  rw [setNode_length]
                  rcases List.mem_append.1 hj with hj | hj
                  · rcases List.mem_cons.1 hj with rfl | hj
                    · omega
                    · rcases List.mem_append.1 hj with hj | hj
                      · have := A.irUb j hj; omega
                      · rcases List.mem_singleton.1 hj with rfl
                        omega
                  · exact B.irUb j hj
                · dsimp only
                  have h1 : (ctx1.arena ++ [ME]).length ≠ nextRes.exit := by omega
                  rw [setNode_getD_ne _ _ _ _ _ h1]
                  exact B.exitOpenNext
                · dsimp only
                  have h1 : (ctx1.arena ++ [ME]).length ≠ nextRes.exit := by omega
                  rw [setNode_getD_ne _ _ _ _ _ h1]
                  exact B.exitOpenNI
        | parallel branches nextName =>
          cases hbr : translate_branches fuel resolver branches ctx with
          | error e => simp only [hbr] at h; cases h
          | ok p =>
            obtain ⟨rs, ctx1⟩ := p
            simp only [hbr, pushNode] at h
            have A := ihBr resolver branches ctx rs ctx1 hbr
            have hLe := A.lenLe
            have hAm := A.mapLe
            have hAp := A.parLe
            cases nextName with
            | none =>
              dsimp only at h
              rw [Except.ok.injEq, Prod.mk.injEq] at h
              obtain ⟨rfl, rfl⟩ := h
              generalize hPE : ({ name := parallelEntryName ctx1.parallelCounter, next := some (.many (rs.map (fun r => nodeName ctx1 r.entry))), nextInput := some .scalar, synthetic := true } : Node) = PE
              generalize hPS : ({ name := parallelSinkName ctx1.parallelCounter, synthetic := true } : Node) = PS
              generalize hNX : NextField.one (parallelSinkName ctx1.parallelCounter) = NX
              generalize hNI : NextInputField.fanIn (parallel_fan_in_vals (rs.map (fun r => nodeName ctx1 r.exit))) = NI
              have e2 : (ctx1.arena ++ [PE]).length = ctx1.arena.length + 1 := push_len _ _
              have e3 : (wireNodes (rs.map (fun r => r.exit)) NX NI
                  ((ctx1.arena ++ [PE]) ++ [PS])).length = ctx1.arena.length + 1 + 1 := by
                rw [wireNodes_length, push_len, e2]
              refine { lenLe := ?_, mapLe := hAm, parLe := ?_,
                       frame := ?_, entryLb := hLe, entryUb := ?_,
                       exitLb := ?_, exitUb := ?_,
                       irLb := ?_, irUb := ?_,
                       exitOpenNext := ?_, exitOpenNI := ?_ }
              · dsimp only; omega
              · dsimp only; omega
              · intro i hi
                dsimp only
                have hnot : i ∉ rs.map (fun r => r.exit) := by
                  intro hmem
                  obtain ⟨r, hr, rfl⟩ := List.mem_map.1 hmem
                  have := A.exitLb r hr; omega
                have h2 : i < (ctx1.arena ++ [PE]).length := by omega
                rw [wireNodes_getD_notMem _ _ _ _ _ hnot,
                  nodeGetD_append_lt _ _ _ h2,
                  nodeGetD_append_lt _ _ _ (lt_of_lt_of_le hi hLe),
                  A.frame i hi]
              · dsimp only; omega
              · dsimp only; omega
              · dsimp only; omega
              · intro j hj
                dsimp only at hj ⊢
                rcases List.mem_cons.1 hj with rfl | hj
                · exact hLe
                · rcases List.mem_append.1 hj with hj | hj
                  · obtain ⟨l, hl, hjl⟩ := List.mem_flatten.1 hj
                    obtain ⟨r, hr, rfl⟩ := List.mem_map.1 hl
                    exact A.irLb r hr j hjl
                  · rcases List.mem_singleton.1 hj with rfl
                    omega
              · intro j hj
                dsimp only at hj ⊢
                rcases List.mem_cons.1 hj with rfl | hj
                · omega
                · rcases List.mem_append.1 hj with hj | hj
                  · obtain ⟨l, hl, hjl⟩ := List.mem_flatten.1 hj
                    obtain ⟨r, hr, rfl⟩ := List.mem_map.1 hl
                    have := A.irUb r hr j hjl; omega
                  · rcases List.mem_singleton.1 hj with rfl
                    omega
              · dsimp only
                have hnot : (ctx1.arena ++ [PE]).length ∉ rs.map (fun r => r.exit) := by
                  intro hmem
                  obtain ⟨r, hr, hrx⟩ := List.mem_map.1 hmem
                  have := A.exitUb r hr; omega
                rw [wireNodes_getD_notMem _ _ _ _ _ hnot, nodeGetD_concat_self, ← hPS]
              · dsimp only
                have hnot : (ctx1.arena ++ [PE]).length ∉ rs.map (fun r => r.exit) := by
                  intro hmem
                  obtain ⟨r, hr, hrx⟩ := List.mem_map.1 hmem
                  have := A.exitUb r hr; omega
                rw [wireNodes_getD_notMem _ _ _ _ _ hnot, nodeGetD_concat_self, ← hPS]
            | some nxt =>
              dsimp only at h
              split at h
              · cases h
              · rename_i nextRes ctx4 heq
                revert heq h
                generalize hPE : ({ name := parallelEntryName ctx1.parallelCounter, next := some (.many (rs.map (fun r => nodeName ctx1 r.entry))), nextInput := some .scalar, synthetic := true } : Node) = PE
                generalize hPS : ({ name := parallelSinkName ctx1.parallelCounter, synthetic := true } : Node) = PS
                generalize hNX : NextField.one (parallelSinkName ctx1.parallelCounter) = NX
                generalize hNI : NextInputField.fanIn (parallel_fan_in_vals (rs.map (fun r => nodeName ctx1 r.exit))) = NI
                intro heq h
                have B := ihAux resolver sm nxt _ nextRes ctx4 heq
                rw [Except.ok.injEq, Prod.mk.injEq] at h
                obtain ⟨rfl, rfl⟩ := h
                have e2 : (ctx1.arena ++ [PE]).length = ctx1.arena.length + 1 := push_len _ _
                have e3 : (wireNodes (rs.map (fun r => r.exit)) NX NI
                    ((ctx1.arena ++ [PE]) ++ [PS])).length = ctx1.arena.length + 1 + 1 := by
                  rw [wireNodes_length, push_len, e2]
                have hBlen := B.lenLe
                have hBexL := B.exitLb
                have hBexU := B.exitUb
                have hBmap := B.mapLe
                have hBpar := B.parLe
                have hBfr := B.frame
                dsimp only at hBlen hBexL hBexU hBmap hBpar hBfr
                rw [e3] at hBlen hBexL hBfr
                refine { lenLe := ?_, mapLe := ?_, parLe := ?_,
                         frame := ?_, entryLb := hLe, entryUb := ?_,
                         exitLb := ?_, exitUb := ?_,
                         irLb := ?_, irUb := ?_,
                         exitOpenNext := ?_, exitOpenNI := ?_ }
                · dsimp only; rw [setNode_length]; omega
                · dsimp only; omega
                · dsimp only; omega
                · intro i hi
                  dsimp only
                  have h1 : (ctx1.arena ++ [PE]).length ≠ i := by omega
                  have hnot : i ∉ rs.map (fun r => r.exit) := by
                    intro hmem
                    obtain ⟨r, hr, rfl⟩ := List.mem_map.1 hmem
                    have := A.exitLb r hr; omega
                  have h3 : i < (ctx1.arena ++ [PE]).length := by omega
                  rw [setNode_getD_ne _ _ _ _ _ h1, hBfr i (by omega),
                    wireNodes_getD_notMem _ _ _ _ _ hnot,
                    nodeGetD_append_lt _ _ _ h3,
                    nodeGetD_append_lt _ _ _ (lt_of_lt_of_le hi hLe),
                    A.frame i hi]
                · dsimp only; rw [setNode_length]; omega
                · dsimp only; omega
                · dsimp only; rw [setNode_length]; omega
                · intro j hj
                  dsimp only at hj ⊢
                  rcases List.mem_append.1 hj with hj | hj
                  · rcases List.mem_cons.1 hj with rfl | hj
                    · exact hLe
                    · rcases List.mem_append.1 hj with hj | hj
                      · obtain ⟨l, hl, hjl⟩ := List.mem_flatten.1 hj
                        obtain ⟨r, hr, rfl⟩ := List.mem_map.1 hl
                        exact A.irLb r hr j hjl
                      · rcases List.mem_singleton.1 hj with rfl
                        omega
                  · have := B.irLb j hj
                    dsimp only at this
                    rw [e3] at this
                    omega
                · intro j hj
                  dsimp only at hj ⊢
                  rw [setNode_length]
                  rcases List.mem_append.1 hj with hj | hj
                  · rcases List.mem_cons.1 hj with rfl | hj
                    · omega
                    · rcases List.mem_append.1 hj with hj | hj
                      · obtain ⟨l, hl, hjl⟩ := List.mem_flatten.1 hj
                        obtain ⟨r, hr, rfl⟩ := List.mem_map.1 hl
                        have := A.irUb r hr j hjl; omega
                      · rcases List.mem_singleton.1 hj with rfl
                        omega
                  · exact B.irUb j hj
                · dsimp only
                  have h1 : (ctx1.arena ++ [PE]).length ≠ nextRes.exit := by omega
                  rw [setNode_getD_ne _ _ _ _ _ h1]
                  exact B.exitOpenNext
                · dsimp only
                  have h1 : (ctx1.arena ++ [PE]).length ≠ nextRes.exit := by omega
                  rw [setNode_getD_ne _ _ _ _ _ h1]
                  exact B.exitOpenNI
    · -- translate_state_machine
      intro resolver sm ctx res ctx' h
      simp only [translate_state_machine] at h
      cases hl : lookupState sm sm.startAt with
      | none => simp only [hl] at h; cases h
      | some st =>
        simp only [hl] at h
        exact ihAux resolver sm sm.startAt ctx res ctx' h
    · -- translate_branches
      intro resolver bs ctx rs ctx' h
      cases bs with
      | nil =>
        simp only [translate_branches] at h
        rw [Except.ok.injEq, Prod.mk.injEq] at h
        obtain ⟨rfl, rfl⟩ := h
        exact branchesInv_nil ctx
      | cons b bs' =>
        simp only [translate_branches] at h
        cases hm : translate_state_machine fuel resolver b ctx with
        | error e => simp only [hm] at h; cases h
        | ok p =>
          obtain ⟨r, ctx1⟩ := p
          simp only [hm] at h
          cases hb : translate_branches fuel resolver bs' ctx1 with
          | error e => simp only [hb] at h; cases h
          | ok q =>
            obtain ⟨rs', ctx2⟩ := q
            simp only [hb] at h
            rw [Except.ok.injEq, Prod.mk.injEq] at h
            obtain ⟨rfl, rfl⟩ := h
            exact branchesInv_cons (ihMach resolver b ctx r ctx1 hm)
              (ihBr resolver bs' ctx1 rs' ctx2 hb)

/-! ### Claim theorems (easy group) and concrete counterexamples -/

/-- C3: after the checkpoint policy pass, a node whose `NextInput` is a
`Fan-in` spec has `Checkpoint = true` irrespective of the configured
default, and every other node gets exactly the default policy. -/
theorem c3_checkpoint_forcing (d : Bool) (ns : List Node) (nd : Node)
    (h : nd ∈ checkpoint_pass d ns) :
    (isFanInInput nd.nextInput = true → nd.checkpoint = some true) ∧
    (isFanInInput nd.nextInput = false → nd.checkpoint = some d) := by
  rcases List.mem_map.1 h with ⟨c, _, rfl⟩
  by_cases hf : isFanInInput c.nextInput <;> simp [hf]

theorem c3_checkpoint_forcing_witness :
    (isFanInInput exampleFanInNodeCk.nextInput = true →
      exampleFanInNodeCk.checkpoint = some true) ∧
    (isFanInInput exampleFanInNodeCk.nextInput = false →
      exampleFanInNodeCk.checkpoint = some false) :=
  c3_checkpoint_forcing false [exampleFanInNode] exampleFanInNodeCk (by decide)

/-- C8: lowering a Task whose `End` flag is not `True` and which has no
`Next` fails immediately (the bare `raise` at sf.py:92, the spec's
MalformedGraph), provided its resource resolves. -/
theorem c8_task_neither_end_nor_next (fuel' : Nat)
    (resolver : List (String × String)) (sm : StateMachine)
    (nm resource f : String) (endFlag : Option Bool) (ctx : Ctx)
    (hlook : lookupState sm nm = some (.task resource endFlag none))
    (hres : get_state_unum_function_name resolver resource = .ok f)
    (hend : ¬ endFlag = some true) :
    translate_state_machine_aux (fuel' + 1) resolver sm nm ctx =
      .error .malformedGraph := by
  simp [translate_state_machine_aux, hlook, hres, hend]

theorem c8_task_neither_end_nor_next_witness :
    translate_state_machine_aux 1 [] exampleStuckTask "A"
      { mapCounter := 0, parallelCounter := 0, arena := [] } =
      .error .malformedGraph :=
  c8_task_neither_end_nor_next 0 [] exampleStuckTask "A" "f9" "f9" none
    { mapCounter := 0, parallelCounter := 0, arena := [] }
    rfl rfl (by decide)

/-- C9: compiling the chain `A -> B -> C(End)` twice in one process —
the second run starting from the counter state the first run left behind
— produces the same IR both times. -/
theorem c9_idempotent_chain_compile :
    compileRun 10 [] false exampleChain3 { mapC := 0, parallelC := 0 } =
      .ok (exampleChain3IR, { mapC := 0, parallelC := 0 }) ∧
    compileRun 10 [] false exampleChain3 { mapC := 0, parallelC := 0 } =
      .ok (exampleChain3IR, { mapC := 0, parallelC := 0 }) :=
  ⟨rfl, rfl⟩

/-- C10: a Task whose resource does not contain `arn:aws:lambda` keeps
the resource string verbatim as the emitted node name, and the resolver
mapping yields the identity on it (it is never consulted: the result is
the same for every resolver). -/
theorem c10_non_arn_resource_verbatim (fuel' : Nat)
    (resolver : List (String × String)) (sm : StateMachine)
    (nm resource : String) (endFlag : Option Bool) (nextName : Option String)
    (ctx : Ctx) (res : TRes) (ctx' : Ctx)
    (hlook : lookupState sm nm = some (.task resource endFlag nextName))
    (harn : containsSubstr "arn:aws:lambda" resource = false)
    (htr : translate_state_machine_aux (fuel' + 1) resolver sm nm ctx =
      .ok (res, ctx')) :
    nodeName ctx' res.entry = resource ∧
    get_state_unum_function_name resolver resource = .ok resource := by
  have hres : get_state_unum_function_name resolver resource = .ok resource := by
    simp [get_state_unum_function_name, harn]
  refine ⟨?_, hres⟩
  simp only [translate_state_machine_aux, hlook, hres] at htr
  by_cases hend : endFlag = some true
  · rw [if_pos hend] at htr
    simp only [pushNode] at htr
    rw [Except.ok.injEq, Prod.mk.injEq] at htr
    obtain ⟨hres2, hctx⟩ := htr
    subst hres2; subst hctx
    simp [nodeName, nodeGetD_concat_self]
  · rw [if_neg hend] at htr
    cases nextName with
    | none => cases htr
    | some nxt =>
      cases hrec : translate_state_machine_aux fuel' resolver sm nxt ctx with
      | error e => simp only [hrec] at htr; cases htr
      | ok p =>
        obtain ⟨nextRes, ctx1⟩ := p
        simp only [hrec, pushNode] at htr
        rw [Except.ok.injEq, Prod.mk.injEq] at htr
        obtain ⟨hres2, hctx⟩ := htr
        subst hres2; subst hctx
        simp [nodeName, nodeGetD_concat_self]

theorem c10_non_arn_resource_verbatim_witness :
    nodeName { mapCounter := 0, parallelCounter := 0, arena := [{ name := "f3" }] } 0 = "f3" ∧
    get_state_unum_function_name [] "f3" = .ok "f3" :=
  c10_non_arn_resource_verbatim 0 [] exampleIterF3 "f3" "f3" (some true) none
    { mapCounter := 0, parallelCounter := 0, arena := [] }
    { stateName := "f3", ir := [0], entry := 0, exit := 0 }
    { mapCounter := 0, parallelCounter := 0, arena := [{ name := "f3" }] }
    rfl (by decide) rfl

/-- C5 counterexample: lowering a Parallel with an empty branch list does
NOT fail — it succeeds and returns a two-node IR (the claim asserts an
immediate MalformedGraph failure). -/
theorem c5_empty_parallel_succeeds_counterexample :
    translate_state_machine 3 [] exampleEmptyParallel
        { mapCounter := 0, parallelCounter := 0, arena := [] } =
      .ok ({ stateName := "P", ir := [0, 1], entry := 0, exit := 1 },
        { mapCounter := 0, parallelCounter := 1,
          arena := [{ name := "UnumParallel0", next := some (.many []),
                      nextInput := some .scalar, synthetic := true },
                    { name := "UnumParallelSink0", synthetic := true }] }) ∧
    isOkE (translate_state_machine 3 [] exampleEmptyParallel
      { mapCounter := 0, parallelCounter := 0, arena := [] }) = true :=
  ⟨rfl, rfl⟩

/-- C2 counterexample: with the configured default policy `false`,
Scenario 2's map sink `UnumMapSink0` ends with `Checkpoint = false`, not
the `Checkpoint:true` the claim's Scenario 2 lists (only nodes whose
`NextInput` carries a `Fan-in` are forced; the sink has no `NextInput`). -/
theorem c2_sink_checkpoint_counterexample :
    runIR (compileRun 10 [] false exampleScen2 { mapC := 0, parallelC := 0 }) =
      [{ name := "UnumMap0", next := some (.one "f3"), nextInput := some .mapInput,
         checkpoint := some false, synthetic := true },
       { name := "f3", next := some (.one "UnumMapSink0"),
         nextInput := some (.fanIn ["f3-unumIndex-*"]), checkpoint := some true },
       { name := "UnumMapSink0", checkpoint := some false, synthetic := true }] ∧
    ((runIR (compileRun 10 [] false exampleScen2
        { mapC := 0, parallelC := 0 })).getD 2 default).name = "UnumMapSink0" ∧
    ¬ ((runIR (compileRun 10 [] false exampleScen2
        { mapC := 0, parallelC := 0 })).getD 2 default).checkpoint = some true :=
  ⟨rfl, rfl, by decide⟩

/-- C4 counterexample: a run over two Task states sharing the resource
`f1` succeeds and emits two nodes that carry the same name — emitted
names are not pairwise distinct. -/
theorem c4_duplicate_names_counterexample :
    isOkE (compileRun 10 [] false exampleDupTasks { mapC := 0, parallelC := 0 }) = true ∧
    (runIR (compileRun 10 [] false exampleDupTasks
      { mapC := 0, parallelC := 0 })).map Node.name = ["f1", "f1"] ∧
    ¬ ((runIR (compileRun 10 [] false exampleDupTasks
      { mapC := 0, parallelC := 0 })).map Node.name).Nodup :=
  ⟨rfl, rfl, by decide⟩

/-- C6 counterexample: for a Map whose iterator contains a Map, the outer
Map's barrier carries the STRICTLY LARGER counter value: the outer entry
is `UnumMap1` and the inner entry `UnumMap0` (the claim asserts the outer
value is strictly smaller, which would require `1 < 0`). -/
theorem c6_counter_order_counterexample :
    (runIR (compileRun 10 [] false exampleNestedMap
      { mapC := 0, parallelC := 0 })).map Node.name =
      ["UnumMap1", "UnumMap0", "f6", "UnumMapSink0", "UnumMapSink1"] ∧
    ((runIR (compileRun 10 [] false exampleNestedMap
      { mapC := 0, parallelC := 0 })).getD 0 default).name = mapEntryName 1 ∧
    ((runIR (compileRun 10 [] false exampleNestedMap
      { mapC := 0, parallelC := 0 })).getD 1 default).name = mapEntryName 0 ∧
    ¬ (1 : Nat) < 0 :=
  ⟨rfl, rfl, rfl, by decide⟩

/-! ### Structural helper lemmas for the claim theorems -/

theorem translate_branches_length (bs : List StateMachine) :
    ∀ (fuel : Nat) (resolver : List (String × String)) (ctx : Ctx)
      (rs : List TRes) (ctx' : Ctx),
      translate_branches fuel resolver bs ctx = .ok (rs, ctx') →
      rs.length = bs.length := by
  induction bs with
  | nil =>
    intro fuel resolver ctx rs ctx' h
    simp only [translate_branches] at h
    rw [Except.ok.injEq, Prod.mk.injEq] at h
    obtain ⟨rfl, rfl⟩ := h
    rfl
  | cons b bs ih =>
    intro fuel resolver ctx rs ctx' h
    cases fuel with
    | zero => cases h
    | succ f =>
      simp only [translate_branches] at h
      cases hm : translate_state_machine f resolver b ctx with
      | error e => simp only [hm] at h; cases h
      | ok p =>
        obtain ⟨r1, ctx1⟩ := p
        simp only [hm] at h
        cases hb : translate_branches f resolver bs ctx1 with
        | error e => simp only [hb] at h; cases h
        | ok q =>
          obtain ⟨rs2, ctx2⟩ := q
          simp only [hb] at h
          rw [Except.ok.injEq, Prod.mk.injEq] at h
          obtain ⟨rfl, rfl⟩ := h
          simp [ih f resolver ctx1 rs2 ctx2 hb]

theorem parallel_fan_in_vals_length (ns : List String) :
    (parallel_fan_in_vals ns).length = ns.length := by
  simp [parallel_fan_in_vals]

theorem parallel_fan_in_vals_getD (ns : List String) (i : Nat) (h : i < ns.length) :
    (parallel_fan_in_vals ns).getD i "" = ns.getD i "" ++ "-unumIndex-" ++ Nat.repr i := by
  simp [parallel_fan_in_vals, List.getD_eq_getElem?_getD, List.getElem?_map,
    List.getElem?_range h]

theorem map_exitName_getD (rs : List TRes) (ctx1 : Ctx) (i : Nat) (h : i < rs.length) :
    (rs.map (fun t => nodeName ctx1 t.exit)).getD i "" =
      nodeName ctx1 (rs.getD i default).exit := by
  simp [List.getD_eq_getElem?_getD, List.getElem?_map, List.getElem?_eq_getElem h]

/-- C7: on return from lowering any state, the returned exit node's `Next`
and `NextInput` are still absent: the deferred continuation is set at most
once, by the enclosing caller, and is never set by the callee and then
overwritten. -/
theorem c7_exit_next_absent (fuel : Nat) (resolver : List (String × String))
    (sm : StateMachine) (nm : String) (ctx : Ctx) (res : TRes) (ctx' : Ctx)
    (htr : translate_state_machine_aux fuel resolver sm nm ctx = .ok (res, ctx')) :
    (ctx'.arena.getD res.exit default).next = none ∧
    (ctx'.arena.getD res.exit default).nextInput = none :=
  ⟨((translateInvAll fuel).1 resolver sm nm ctx res ctx' htr).exitOpenNext,
   ((translateInvAll fuel).1 resolver sm nm ctx res ctx' htr).exitOpenNI⟩

theorem c7_exit_next_absent_witness :
    (({ mapCounter := 0, parallelCounter := 0, arena := [{ name := "f3" }] } : Ctx).arena.getD 0 default).next = none ∧
    (({ mapCounter := 0, parallelCounter := 0, arena := [{ name := "f3" }] } : Ctx).arena.getD 0 default).nextInput = none :=
  c7_exit_next_absent 1 [] exampleIterF3 "f3"
    { mapCounter := 0, parallelCounter := 0, arena := [] }
    { stateName := "f3", ir := [0], entry := 0, exit := 0 }
    { mapCounter := 0, parallelCounter := 0, arena := [{ name := "f3" }] } rfl

/-- C1: lowering a Parallel with `k ≥ 1` branches wires every branch
exit's continuation to a Fan-in targeting the parallel sink, whose spec is
one identical explicit list for all branches of exactly `k` keys, the
`i`-th key being the `i`-th branch's exit name followed by
`-unumIndex-` and the 0-based branch position `i`. -/
theorem c1_parallel_fanin_spec (fuel : Nat) (resolver : List (String × String))
    (sm : StateMachine) (nm : String) (bs : List StateMachine)
    (nextName : Option String) (ctx ctx1 ctx' : Ctx) (rs : List TRes) (res : TRes)
    (hlook : lookupState sm nm = some (.parallel bs nextName))
    (hk : 1 ≤ bs.length)
    (hbr : translate_branches fuel resolver bs ctx = .ok (rs, ctx1))
    (htr : translate_state_machine_aux (fuel + 1) resolver sm nm ctx = .ok (res, ctx')) :
    rs.length = bs.length ∧
    (parallel_fan_in_vals (rs.map (fun t => nodeName ctx1 t.exit))).length = bs.length ∧
    (∀ i, i < bs.length →
      (parallel_fan_in_vals (rs.map (fun t => nodeName ctx1 t.exit))).getD i "" =
        nodeName ctx1 (rs.getD i default).exit ++ "-unumIndex-" ++ Nat.repr i) ∧
    (∀ t ∈ rs,
      (ctx'.arena.getD t.exit default).next =
        some (.one (parallelSinkName ctx1.parallelCounter)) ∧
      (ctx'.arena.getD t.exit default).nextInput =
        some (.fanIn (parallel_fan_in_vals (rs.map (fun t => nodeName ctx1 t.exit))))) := by
  have hlen := translate_branches_length bs fuel resolver ctx rs ctx1 hbr
  have A := (translateInvAll fuel).2.2 resolver bs ctx rs ctx1 hbr
  refine ⟨hlen, ?_, ?_, ?_⟩
  · rw [parallel_fan_in_vals_length, List.length_map, hlen]
  · intro i hi
    rw [parallel_fan_in_vals_getD _ i (by rw [List.length_map, hlen]; exact hi),
      map_exitName_getD rs ctx1 i (by rw [hlen]; exact hi)]
  · intro t ht
    have htexU := A.exitUb t ht
    have hmem : t.exit ∈ rs.map (fun r => r.exit) := List.mem_map.2 ⟨t, ht, rfl⟩
    simp only [translate_state_machine_aux, hlook, hbr, pushNode] at htr
    cases nextName with
    | none =>
      dsimp only at htr
      rw [Except.ok.injEq, Prod.mk.injEq] at htr
      obtain ⟨rfl, rfl⟩ := htr
      generalize hPE : ({ name := parallelEntryName ctx1.parallelCounter, next := some (.many (rs.map (fun r => nodeName ctx1 r.entry))), nextInput := some .scalar, synthetic := true } : Node) = PE
      generalize hPS : ({ name := parallelSinkName ctx1.parallelCounter, synthetic := true } : Node) = PS
      have e2 : (ctx1.arena ++ [PE]).length = ctx1.arena.length + 1 := push_len _ _
      have e2b : ((ctx1.arena ++ [PE]) ++ [PS]).length = (ctx1.arena ++ [PE]).length + 1 := push_len _ _
      have hlt : t.exit < ((ctx1.arena ++ [PE]) ++ [PS]).length := by omega
      dsimp only
      rw [wireNodes_getD_mem _ _ _ _ _ hmem hlt]
      exact ⟨rfl, rfl⟩
    | some nxt =>
      dsimp only at htr
      split at htr
      · cases htr
      · rename_i nextRes ctx4 heq
        revert heq htr
        generalize hPE : ({ name := parallelEntryName ctx1.parallelCounter, next := some (.many (rs.map (fun r => nodeName ctx1 r.entry))), nextInput := some .scalar, synthetic := true } : Node) = PE
        generalize hPS : ({ name := parallelSinkName ctx1.parallelCounter, synthetic := true } : Node) = PS
        intro heq htr
        have B := (translateInvAll fuel).1 resolver sm nxt _ nextRes ctx4 heq
        rw [Except.ok.injEq, Prod.mk.injEq] at htr
        obtain ⟨rfl, rfl⟩ := htr
        have e2 : (ctx1.arena ++ [PE]).length = ctx1.arena.length + 1 := push_len _ _
        have e2b : ((ctx1.arena ++ [PE]) ++ [PS]).length = (ctx1.arena ++ [PE]).length + 1 := push_len _ _
        have e3 : (wireNodes (rs.map (fun r => r.exit))
            (.one (parallelSinkName ctx1.parallelCounter))
            (.fanIn (parallel_fan_in_vals (rs.map (fun r => nodeName ctx1 r.exit))))
            ((ctx1.arena ++ [PE]) ++ [PS])).length = ctx1.arena.length + 1 + 1 := by
          rw [wireNodes_length]; omega
        have hBfr := B.frame
        dsimp only at hBfr
        rw [e3] at hBfr
        have h1 : (ctx1.arena ++ [PE]).length ≠ t.exit := by omega
        have hlt : t.exit < ((ctx1.arena ++ [PE]) ++ [PS]).length := by omega
        dsimp only
        rw [setNode_getD_ne _ _ _ _ _ h1, hBfr t.exit (by omega),
          wireNodes_getD_mem _ _ _ _ _ hmem hlt]
        exact ⟨rfl, rfl⟩

/-- C2 (amended): lowering a Map wires the iterator exit's continuation to
a Fan-in targeting the map sink with a single wildcard key — the iterator
exit's name followed by `-unumIndex-*` — regardless of source element
count; Scenario 2's three IR nodes come out exactly as listed when the
configured default policy is `true` (the sink's Checkpoint follows the
default, it is not forced). -/
theorem c2_map_wildcard_fanin (fuel : Nat) (resolver : List (String × String))
    (sm : StateMachine) (nm : String) (iter : StateMachine)
    (nextName : Option String) (ctx ctx1 ctx' : Ctx) (iterRes res : TRes)
    (hlook : lookupState sm nm = some (.mapState iter nextName))
    (hit : translate_state_machine fuel resolver iter ctx = .ok (iterRes, ctx1))
    (htr : translate_state_machine_aux (fuel + 1) resolver sm nm ctx = .ok (res, ctx')) :
    ((ctx'.arena.getD iterRes.exit default).next =
      some (.one (mapSinkName ctx1.mapCounter)) ∧
    (ctx'.arena.getD iterRes.exit default).nextInput =
      some (.fanIn [nodeName ctx1 iterRes.exit ++ "-unumIndex-*"])) ∧
    compileRun 10 [] true exampleScen2 { mapC := 0, parallelC := 0 } =
      .ok (exampleScen2IR, { mapC := 1, parallelC := 0 }) := by
  have A := (translateInvAll fuel).2.1 resolver iter ctx iterRes ctx1 hit
  have hExU := A.exitUb
  simp only [translate_state_machine_aux, hlook, hit, pushNode] at htr
  refine ⟨?_, rfl⟩
  cases nextName with
  | none =>
    dsimp only at htr
    rw [Except.ok.injEq, Prod.mk.injEq] at htr
    obtain ⟨rfl, rfl⟩ := htr
    generalize hME : ({ name := mapEntryName ctx1.mapCounter, next := some (.one (nodeName ctx1 iterRes.entry)), nextInput := some .mapInput, synthetic := true } : Node) = ME
    generalize hMS : ({ name := mapSinkName ctx1.mapCounter, synthetic := true } : Node) = MS
    have e2 : (ctx1.arena ++ [ME]).length = ctx1.arena.length + 1 := push_len _ _
    have e2b : ((ctx1.arena ++ [ME]) ++ [MS]).length = (ctx1.arena ++ [ME]).length + 1 := push_len _ _
    have hlt : iterRes.exit < ((ctx1.arena ++ [ME]) ++ [MS]).length := by omega
    dsimp only
    rw [setNode_getD_self _ _ _ _ hlt]
    exact ⟨rfl, rfl⟩
  | some nxt =>
    dsimp only at htr
    split at htr
    · cases htr
    · rename_i nextRes ctx4 heq
      revert heq htr
      generalize hME : ({ name := mapEntryName ctx1.mapCounter, next := some (.one (nodeName ctx1 iterRes.entry)), nextInput := some .mapInput, synthetic := true } : Node) = ME
      generalize hMS : ({ name := mapSinkName ctx1.mapCounter, synthetic := true } : Node) = MS
      intro heq htr
      have B := (translateInvAll fuel).1 resolver sm nxt _ nextRes ctx4 heq
      rw [Except.ok.injEq, Prod.mk.injEq] at htr
      obtain ⟨rfl, rfl⟩ := htr
      have e2 : (ctx1.arena ++ [ME]).length = ctx1.arena.length + 1 := push_len _ _
      have e2b : ((ctx1.arena ++ [ME]) ++ [MS]).length = (ctx1.arena ++ [ME]).length + 1 := push_len _ _
      have e3 : (setNode ((ctx1.arena ++ [ME]) ++ [MS]) iterRes.exit
          (.one (mapSinkName ctx1.mapCounter))
          (.fanIn [nodeName ctx1 iterRes.exit ++ "-unumIndex-*"])).length =
          ctx1.arena.length + 1 + 1 := by
        rw [setNode_length]; omega
      have hBfr := B.frame
      dsimp only at hBfr
      rw [e3] at hBfr
      have h1 : (ctx1.arena ++ [ME]).length ≠ iterRes.exit := by omega
      have hlt : iterRes.exit < ((ctx1.arena ++ [ME]) ++ [MS]).length := by omega
      dsimp only
      rw [setNode_getD_ne _ _ _ _ _ h1, hBfr iterRes.exit (by omega),
        setNode_getD_self _ _ _ _ hlt]
      exact ⟨rfl, rfl⟩

/-- C6 (amended): a Map's (resp. Parallel's) barrier pair is named from
the counter value AS LEFT BY the recursive lowering of the iterator
(resp. branches) — the counter is read and advanced only AFTER the
recursion — so an outer Map's barrier names carry a strictly LARGER
counter value than any Map inside its iterator; concretely, the nested
Map compiles to `UnumMap1` outside and `UnumMap0` inside. -/
theorem c6_barrier_allocation_after_recursion :
    (∀ (fuel : Nat) (resolver : List (String × String)) (sm : StateMachine)
        (nm : String) (iter : StateMachine) (nextName : Option String)
        (ctx ctx1 ctx' : Ctx) (iterRes res : TRes),
        lookupState sm nm = some (.mapState iter nextName) →
        translate_state_machine fuel resolver iter ctx = .ok (iterRes, ctx1) →
        translate_state_machine_aux (fuel + 1) resolver sm nm ctx = .ok (res, ctx') →
        nodeName ctx' res.entry = mapEntryName ctx1.mapCounter ∧
        ctx.mapCounter ≤ ctx1.mapCounter ∧
        ctx1.mapCounter + 1 ≤ ctx'.mapCounter) ∧
    (∀ (fuel : Nat) (resolver : List (String × String)) (sm : StateMachine)
        (nm : String) (bs : List StateMachine) (nextName : Option String)
        (ctx ctx1 ctx' : Ctx) (rs : List TRes) (res : TRes),
        lookupState sm nm = some (.parallel bs nextName) →
        translate_branches fuel resolver bs ctx = .ok (rs, ctx1) →
        translate_state_machine_aux (fuel + 1) resolver sm nm ctx = .ok (res, ctx') →
        nodeName ctx' res.entry = parallelEntryName ctx1.parallelCounter ∧
        ctx.parallelCounter ≤ ctx1.parallelCounter ∧
        ctx1.parallelCounter + 1 ≤ ctx'.parallelCounter) ∧
    (runIR (compileRun 10 [] false exampleNestedMap { mapC := 0, parallelC := 0 })).map Node.name =
      ["UnumMap1", "UnumMap0", "f6", "UnumMapSink0", "UnumMapSink1"] := by
  refine ⟨?_, ?_, rfl⟩
  · intro fuel resolver sm nm iter nextName ctx ctx1 ctx' iterRes res hlook hit htr
    have A := (translateInvAll fuel).2.1 resolver iter ctx iterRes ctx1 hit
    have hExU := A.exitUb
    have hAm := A.mapLe
    simp only [translate_state_machine_aux, hlook, hit, pushNode] at htr
    cases nextName with
    | none =>
      dsimp only at htr
      rw [Except.ok.injEq, Prod.mk.injEq] at htr
      obtain ⟨rfl, rfl⟩ := htr
      generalize hME : ({ name := mapEntryName ctx1.mapCounter, next := some (.one (nodeName ctx1 iterRes.entry)), nextInput := some .mapInput, synthetic := true } : Node) = ME
      generalize hMS : ({ name := mapSinkName ctx1.mapCounter, synthetic := true } : Node) = MS
      have e2 : (ctx1.arena ++ [ME]).length = ctx1.arena.length + 1 := push_len _ _
      have h1 : iterRes.exit ≠ ctx1.arena.length := by omega
      have h2 : ctx1.arena.length < (ctx1.arena ++ [ME]).length := by omega
      refine ⟨?_, hAm, ?_⟩
      · simp only [nodeName]
        rw [setNode_getD_ne _ _ _ _ _ h1, nodeGetD_append_lt _ _ _ h2,
          nodeGetD_concat_self, ← hME]
      · dsimp only; omega
    | some nxt =>
      dsimp only at htr
      split at htr
      · cases htr
      · rename_i nextRes ctx4 heq
        revert heq htr
        generalize hME : ({ name := mapEntryName ctx1.mapCounter, next := some (.one (nodeName ctx1 iterRes.entry)), nextInput := some .mapInput, synthetic := true } : Node) = ME
        generalize hMS : ({ name := mapSinkName ctx1.mapCounter, synthetic := true } : Node) = MS
        intro heq htr
        have B := (translateInvAll fuel).1 resolver sm nxt _ nextRes ctx4 heq
        rw [Except.ok.injEq, Prod.mk.injEq] at htr
        obtain ⟨rfl, rfl⟩ := htr
        have e2 : (ctx1.arena ++ [ME]).length = ctx1.arena.length + 1 := push_len _ _
        have e3 : (setNode ((ctx1.arena ++ [ME]) ++ [MS]) iterRes.exit
            (.one (mapSinkName ctx1.mapCounter))
            (.fanIn [nodeName ctx1 iterRes.exit ++ "-unumIndex-*"])).length =
            ctx1.arena.length + 1 + 1 := by
          rw [setNode_length, push_len]; omega
        have hBfr := B.frame
        have hBmap := B.mapLe
        dsimp only at hBfr hBmap
        rw [e3] at hBfr
        have h1 : (ctx1.arena ++ [ME]).length ≠ ctx1.arena.length := by omega
        have h2 : iterRes.exit ≠ ctx1.arena.length := by omega
        have h3 : ctx1.arena.length < (ctx1.arena ++ [ME]).length := by omega
        refine ⟨?_, hAm, ?_⟩
        · simp only [nodeName]
          rw [setNode_getD_ne _ _ _ _ _ h1, hBfr ctx1.arena.length (by omega),
            setNode_getD_ne _ _ _ _ _ h2, nodeGetD_append_lt _ _ _ h3,
            nodeGetD_concat_self, ← hME]
        · dsimp only; omega
  · intro fuel resolver sm nm bs nextName ctx ctx1 ctx' rs res hlook hbr htr
    have A := (translateInvAll fuel).2.2 resolver bs ctx rs ctx1 hbr
    have hAp := A.parLe
    simp only [translate_state_machine_aux, hlook, hbr, pushNode] at htr
    cases nextName with
    | none =>
      dsimp only at htr
      rw [Except.ok.injEq, Prod.mk.injEq] at htr
      obtain ⟨rfl, rfl⟩ := htr
      generalize hPE : ({ name := parallelEntryName ctx1.parallelCounter, next := some (.many (rs.map (fun r => nodeName ctx1 r.entry))), nextInput := some .scalar, synthetic := true } : Node) = PE
      generalize hPS : ({ name := parallelSinkName ctx1.parallelCounter, synthetic := true } : Node) = PS
      have e2 : (ctx1.arena ++ [PE]).length = ctx1.arena.length + 1 := push_len _ _
      have hnot : ctx1.arena.length ∉ rs.map (fun r => r.exit) := by
        intro hmem
        obtain ⟨r, hr, hrx⟩ := List.mem_map.1 hmem
        have := A.exitUb r hr; omega
      have h2 : ctx1.arena.length < (ctx1.arena ++ [PE]).length := by omega
      refine ⟨?_, hAp, ?_⟩
      · simp only [nodeName]
        rw [wireNodes_getD_notMem _ _ _ _ _ hnot, nodeGetD_append_lt _ _ _ h2,
          nodeGetD_concat_self, ← hPE]
      · dsimp only; omega
    | some nxt =>
      dsimp only at htr
      split at htr
      · cases htr
      · rename_i nextRes ctx4 heq
        revert heq htr
        generalize hPE : ({ name := parallelEntryName ctx1.parallelCounter, next := some (.many (rs.map (fun r => nodeName ctx1 r.entry))), nextInput := some .scalar, synthetic := true } : Node) = PE
        generalize hPS : ({ name := parallelSinkName ctx1.parallelCounter, synthetic := true } : Node) = PS
        intro heq htr
        have B := (translateInvAll fuel).1 resolver sm nxt _ nextRes ctx4 heq
        rw [Except.ok.injEq, Prod.mk.injEq] at htr
        obtain ⟨rfl, rfl⟩ := htr
        have e2 : (ctx1.arena ++ [PE]).length = ctx1.arena.length + 1 := push_len _ _
        have e3 : (wireNodes (rs.map (fun r => r.exit))
            (.one (parallelSinkName ctx1.parallelCounter))
            (.fanIn (parallel_fan_in_vals (rs.map (fun r => nodeName ctx1 r.exit))))
            ((ctx1.arena ++ [PE]) ++ [PS])).length = ctx1.arena.length + 1 + 1 := by
          rw [wireNodes_length, push_len]; omega
        have hBfr := B.frame
        have hBpar := B.parLe
        dsimp only at hBfr hBpar
        rw [e3] at hBfr
        have hnot : ctx1.arena.length ∉ rs.map (fun r => r.exit) := by
          intro hmem
          obtain ⟨r, hr, hrx⟩ := List.mem_map.1 hmem
          have := A.exitUb r hr; omega
        have h1 : (ctx1.arena ++ [PE]).length ≠ ctx1.arena.length := by omega
        have h2 : ctx1.arena.length < (ctx1.arena ++ [PE]).length := by omega
        refine ⟨?_, hAp, ?_⟩
        · simp only [nodeName]
          rw [setNode_getD_ne _ _ _ _ _ h1, hBfr ctx1.arena.length (by omega),
            wireNodes_getD_notMem _ _ _ _ _ hnot, nodeGetD_append_lt _ _ _ h2,
            nodeGetD_concat_self, ← hPE]
        · dsimp only; omega

/-- C5 (amended): lowering a Parallel whose branch list is empty does not
raise; with no successor it returns exactly an entry node whose fan-out
target list is empty, and a sink node. -/
theorem c5_empty_parallel_lowering (fuel : Nat) (resolver : List (String × String))
    (sm : StateMachine) (nm : String) (ctx : Ctx)
    (hlook : lookupState sm nm = some (.parallel [] none)) :
    translate_state_machine_aux (fuel + 1) resolver sm nm ctx =
      .ok ({ stateName := nm, ir := [ctx.arena.length, ctx.arena.length + 1],
             entry := ctx.arena.length, exit := ctx.arena.length + 1 },
        { mapCounter := ctx.mapCounter,
          parallelCounter := ctx.parallelCounter + 1,
          arena := ctx.arena ++
            [{ name := parallelEntryName ctx.parallelCounter,
               next := some (.many []), nextInput := some .scalar, synthetic := true },
             { name := parallelSinkName ctx.parallelCounter, synthetic := true }] }) := by
  simp [translate_state_machine_aux, hlook, translate_branches, pushNode,
    wireNodes, parallel_fan_in_vals]

theorem c5_empty_parallel_lowering_witness :
    translate_state_machine_aux 1 [] exampleEmptyParallel "P"
      { mapCounter := 0, parallelCounter := 0, arena := [] } =
      .ok ({ stateName := "P", ir := [0, 1], entry := 0, exit := 1 },
        { mapCounter := 0, parallelCounter := 1,
          arena := [{ name := parallelEntryName 0, next := some (.many []),
                      nextInput := some .scalar, synthetic := true },
                    { name := parallelSinkName 0, synthetic := true }] }) :=
  c5_empty_parallel_lowering 0 [] exampleEmptyParallel "P"
    { mapCounter := 0, parallelCounter := 0, arena := [] } rfl

theorem c1_parallel_fanin_spec_witness :
    exampleScen3Rs.length = 2 ∧
    (parallel_fan_in_vals (exampleScen3Rs.map (fun t => nodeName exampleScen3Ctx1 t.exit))).length = 2 ∧
    (∀ i, i < 2 →
      (parallel_fan_in_vals (exampleScen3Rs.map (fun t => nodeName exampleScen3Ctx1 t.exit))).getD i "" =
        nodeName exampleScen3Ctx1 (exampleScen3Rs.getD i default).exit ++ "-unumIndex-" ++ Nat.repr i) ∧
    (∀ t ∈ exampleScen3Rs,
      (exampleScen3CtxF.arena.getD t.exit default).next =
        some (.one (parallelSinkName exampleScen3Ctx1.parallelCounter)) ∧
      (exampleScen3CtxF.arena.getD t.exit default).nextInput =
        some (.fanIn (parallel_fan_in_vals (exampleScen3Rs.map (fun t => nodeName exampleScen3Ctx1 t.exit))))) :=
  c1_parallel_fanin_spec 5 [] exampleScen3 "P" [exampleBrF4, exampleBrF5] none
    { mapCounter := 0, parallelCounter := 0, arena := [] }
    exampleScen3Ctx1 exampleScen3CtxF exampleScen3Rs exampleScen3Res
    rfl (by decide) rfl rfl

theorem c2_map_wildcard_fanin_witness :
    ((exampleScen2CtxF.arena.getD 0 default).next =
      some (.one (mapSinkName exampleScen2Ctx1.mapCounter)) ∧
    (exampleScen2CtxF.arena.getD 0 default).nextInput =
      some (.fanIn [nodeName exampleScen2Ctx1 0 ++ "-unumIndex-*"])) ∧
    compileRun 10 [] true exampleScen2 { mapC := 0, parallelC := 0 } =
      .ok (exampleScen2IR, { mapC := 1, parallelC := 0 }) :=
  c2_map_wildcard_fanin 5 [] exampleScen2 "M" exampleIterF3 none
    { mapCounter := 0, parallelCounter := 0, arena := [] }
    exampleScen2Ctx1 exampleScen2CtxF
    { stateName := "f3", ir := [0], entry := 0, exit := 0 } exampleScen2Res
    rfl rfl rfl

theorem c6_barrier_allocation_after_recursion_witness :
    (nodeName exampleNestedCtxF 3 = mapEntryName 1 ∧ 0 ≤ 1 ∧ 1 + 1 ≤ 2) ∧
    (nodeName exampleScen3CtxF 2 = parallelEntryName 0 ∧ 0 ≤ 0 ∧ 0 + 1 ≤ 1) :=
  ⟨c6_barrier_allocation_after_recursion.1 5 [] exampleNestedMap "OM"
      exampleInnerMap none { mapCounter := 0, parallelCounter := 0, arena := [] }
      exampleNestedCtx1 exampleNestedCtxF exampleNestedIterRes exampleNestedRes
      rfl rfl rfl,
   c6_barrier_allocation_after_recursion.2.1 5 [] exampleScen3 "P"
      [exampleBrF4, exampleBrF5] none { mapCounter := 0, parallelCounter := 0, arena := [] }
      exampleScen3Ctx1 exampleScen3CtxF exampleScen3Rs exampleScen3Res
      rfl rfl rfl⟩

/-! ### Injectivity of decimal numeral printing (`Nat.repr`) -/

theorem digitVal_digitChar (m : Nat) (h : m < 10) :
    digitValN (Nat.digitChar m) = m := by
  interval_cases m <;> rfl

theorem digitChar_isDigit (m : Nat) (h : m < 10) :
    (Nat.digitChar m).isDigit = true := by
  interval_cases m <;> rfl

theorem foldl_digit_shift (l : List Char) : ∀ a : Nat,
    l.foldl (fun a c => 10 * a + digitValN c) a =
      a * 10 ^ l.length + l.foldl (fun a c => 10 * a + digitValN c) 0 := by
  induction l with
  | nil => intro a; simp
  | cons c l ih =>
    intro a
    simp only [List.foldl_cons, List.length_cons]
    rw [ih (10 * a + digitValN c), ih (10 * 0 + digitValN c)]
    ring

theorem valOfDigits_cons (c : Char) (l : List Char) :
    valOfDigits (c :: l) = digitValN c * 10 ^ l.length + valOfDigits l := by
  unfold valOfDigits
  simp only [List.foldl_cons]
  rw [foldl_digit_shift]
  ring

theorem toDigitsCore_val : ∀ (f n : Nat) (ds : List Char), n < f →
    valOfDigits (Nat.toDigitsCore 10 f n ds) =
      n * 10 ^ ds.length + valOfDigits ds := by
  intro f
  induction f with
  | zero => intro n ds h; omega
  | succ f ih =>
    intro n ds h
    simp only [Nat.toDigitsCore]
    by_cases h10 : n / 10 = 0
    · rw [if_pos h10, valOfDigits_cons, digitVal_digitChar _ (by omega)]
      have hmod : n % 10 = n := by omega
      rw [hmod]
    · rw [if_neg h10]
      have h1 : n / 10 < f := by omega
      rw [ih (n / 10) (Nat.digitChar (n % 10) :: ds) h1, valOfDigits_cons,
        digitVal_digitChar _ (by omega)]
      simp only [List.length_cons]
      obtain ⟨q, r, hqr, hrlt⟩ : ∃ q r, n = 10 * q + r ∧ r < 10 :=
        ⟨n / 10, n % 10, by omega, by omega⟩
      have hq : n / 10 = q := by omega
      have hr : n % 10 = r := by omega
      rw [hq, hr]
      subst hqr
      ring

theorem valOfDigits_toDigits (n : Nat) : valOfDigits (Nat.toDigits 10 n) = n := by
  unfold Nat.toDigits
  rw [toDigitsCore_val (n + 1) n [] (Nat.lt_succ_self n)]
  simp [valOfDigits]

theorem repr_inj {m n : Nat} (h : Nat.repr m = Nat.repr n) : m = n := by
  have hd : Nat.toDigits 10 m = Nat.toDigits 10 n := by
    have h2 := congrArg String.data h
    simpa [Nat.repr, List.asString] using h2
  have h3 := congrArg valOfDigits hd
  rwa [valOfDigits_toDigits, valOfDigits_toDigits] at h3

theorem toDigitsCore_digits : ∀ (f n : Nat) (ds : List Char),
    (∀ c ∈ ds, c.isDigit = true) →
    ∀ c ∈ Nat.toDigitsCore 10 f n ds, c.isDigit = true := by
  intro f
  induction f with
  | zero => intro n ds hds; simpa [Nat.toDigitsCore] using hds
  | succ f ih =>
    intro n ds hds c hc
    simp only [Nat.toDigitsCore] at hc
    by_cases h10 : n / 10 = 0
    · rw [if_pos h10] at hc
      rcases List.mem_cons.1 hc with rfl | hc
      · exact digitChar_isDigit _ (by omega)
      · exact hds c hc
    · rw [if_neg h10] at hc
      refine ih (n / 10) _ ?_ c hc
      intro c2 hc2
      rcases List.mem_cons.1 hc2 with rfl | hc2
      · exact digitChar_isDigit _ (by omega)
      · exact hds c2 hc2

theorem repr_chars_digit (n : Nat) : ∀ c ∈ (Nat.repr n).data, c.isDigit = true := by
  intro c hc
  have h2 : c ∈ Nat.toDigits 10 n := by
    simpa [Nat.repr, List.asString] using hc
  exact toDigitsCore_digits (n + 1) n [] (by intro c2 h2; cases h2) c h2

/-! ### Pairwise distinctness of the synthetic barrier name families -/

theorem string_append_cancel_left {s t u : String} (h : s ++ t = s ++ u) : t = u := by
  have hd := congrArg String.data h
  simp only [String.data_append] at hd
  have h2 := List.append_cancel_left hd
  exact congrArg String.mk h2

theorem mapEntryName_inj {a b : Nat} (h : mapEntryName a = mapEntryName b) : a = b :=
  repr_inj (string_append_cancel_left h)

theorem mapSinkName_inj {a b : Nat} (h : mapSinkName a = mapSinkName b) : a = b :=
  repr_inj (string_append_cancel_left h)

theorem parallelEntryName_inj {a b : Nat}
    (h : parallelEntryName a = parallelEntryName b) : a = b :=
  repr_inj (string_append_cancel_left h)

theorem parallelSinkName_inj {a b : Nat}
    (h : parallelSinkName a = parallelSinkName b) : a = b :=
  repr_inj (string_append_cancel_left h)

theorem no_S_in_repr (a : Nat) (l : List Char)
    (h : (Nat.repr a).data = 'S' :: l) : False := by
  have h2 : 'S' ∈ (Nat.repr a).data := by rw [h]; exact List.mem_cons_self _ _
  exact absurd (repr_chars_digit a 'S' h2) (by decide)

theorem mapEntryName_ne_mapSinkName (a b : Nat) : mapEntryName a ≠ mapSinkName b := by
  intro h
  have hd := congrArg String.data h
  simp only [mapEntryName, mapSinkName, String.data_append] at hd
  have e : (['U', 'n', 'u', 'm', 'M', 'a', 'p', 'S', 'i', 'n', 'k'] : List Char) =
      ['U', 'n', 'u', 'm', 'M', 'a', 'p'] ++ 'S' :: ['i', 'n', 'k'] := rfl
  rw [e, List.append_assoc] at hd
  have h3 := List.append_cancel_left hd
  rw [List.cons_append] at h3
  exact no_S_in_repr a _ h3

theorem parallelEntryName_ne_parallelSinkName (a b : Nat) :
    parallelEntryName a ≠ parallelSinkName b := by
  intro h
  have hd := congrArg String.data h
  simp only [parallelEntryName, parallelSinkName, String.data_append] at hd
  have e : (['U', 'n', 'u', 'm', 'P', 'a', 'r', 'a', 'l', 'l', 'e', 'l', 'S', 'i', 'n', 'k'] : List Char) =
      ['U', 'n', 'u', 'm', 'P', 'a', 'r', 'a', 'l', 'l', 'e', 'l'] ++ 'S' :: ['i', 'n', 'k'] := rfl
  rw [e, List.append_assoc] at hd
  have h3 := List.append_cancel_left hd
  rw [List.cons_append] at h3
  exact no_S_in_repr a _ h3

theorem mapEntryName_ne_parallelEntryName (a b : Nat) :
    mapEntryName a ≠ parallelEntryName b := by
  intro h
  have hd := congrArg String.data h
  simp only [mapEntryName, parallelEntryName, String.data_append] at hd
  have e1 : (['U', 'n', 'u', 'm', 'M', 'a', 'p'] : List Char) =
      ['U', 'n', 'u', 'm'] ++ 'M' :: ['a', 'p'] := rfl
  have e2 : (['U', 'n', 'u', 'm', 'P', 'a', 'r', 'a', 'l', 'l', 'e', 'l'] : List Char) =
      ['U', 'n', 'u', 'm'] ++ 'P' :: ['a', 'r', 'a', 'l', 'l', 'e', 'l'] := rfl
  rw [e1, e2, List.append_assoc, List.append_assoc] at hd
  have h3 := List.append_cancel_left hd
  rw [List.cons_append, List.cons_append] at h3
  injection h3 with h31 h32
  exact absurd h31 (by decide)

theorem mapEntryName_ne_parallelSinkName (a b : Nat) :
    mapEntryName a ≠ parallelSinkName b := by
  intro h
  have hd := congrArg String.data h
  simp only [mapEntryName, parallelSinkName, String.data_append] at hd
  have e1 : (['U', 'n', 'u', 'm', 'M', 'a', 'p'] : List Char) =
      ['U', 'n', 'u', 'm'] ++ 'M' :: ['a', 'p'] := rfl
  have e2 : (['U', 'n', 'u', 'm', 'P', 'a', 'r', 'a', 'l', 'l', 'e', 'l', 'S', 'i', 'n', 'k'] : List Char) =
      ['U', 'n', 'u', 'm'] ++ 'P' :: ['a', 'r', 'a', 'l', 'l', 'e', 'l', 'S', 'i', 'n', 'k'] := rfl
  rw [e1, e2, List.append_assoc, List.append_assoc] at hd
  have h3 := List.append_cancel_left hd
  rw [List.cons_append, List.cons_append] at h3
  injection h3 with h31 h32
  exact absurd h31 (by decide)

theorem mapSinkName_ne_parallelEntryName (a b : Nat) :
    mapSinkName a ≠ parallelEntryName b := by
  intro h
  have hd := congrArg String.data h
  simp only [mapSinkName, parallelEntryName, String.data_append] at hd
  have e1 : (['U', 'n', 'u', 'm', 'M', 'a', 'p', 'S', 'i', 'n', 'k'] : List Char) =
      ['U', 'n', 'u', 'm'] ++ 'M' :: ['a', 'p', 'S', 'i', 'n', 'k'] := rfl
  have e2 : (['U', 'n', 'u', 'm', 'P', 'a', 'r', 'a', 'l', 'l', 'e', 'l'] : List Char) =
      ['U', 'n', 'u', 'm'] ++ 'P' :: ['a', 'r', 'a', 'l', 'l', 'e', 'l'] := rfl
  rw [e1, e2, List.append_assoc, List.append_assoc] at hd
  have h3 := List.append_cancel_left hd
  rw [List.cons_append, List.cons_append] at h3
  injection h3 with h31 h32
  exact absurd h31 (by decide)

theorem mapSinkName_ne_parallelSinkName (a b : Nat) :
    mapSinkName a ≠ parallelSinkName b := by
  intro h
  have hd := congrArg String.data h
  simp only [mapSinkName, parallelSinkName, String.data_append] at hd
  have e1 : (['U', 'n', 'u', 'm', 'M', 'a', 'p', 'S', 'i', 'n', 'k'] : List Char) =
      ['U', 'n', 'u', 'm'] ++ 'M' :: ['a', 'p', 'S', 'i', 'n', 'k'] := rfl
  have e2 : (['U', 'n', 'u', 'm', 'P', 'a', 'r', 'a', 'l', 'l', 'e', 'l', 'S', 'i', 'n', 'k'] : List Char) =
      ['U', 'n', 'u', 'm'] ++ 'P' :: ['a', 'r', 'a', 'l', 'l', 'e', 'l', 'S', 'i', 'n', 'k'] := rfl
  rw [e1, e2, List.append_assoc, List.append_assoc] at hd
  have h3 := List.append_cancel_left hd
  rw [List.cons_append, List.cons_append] at h3
  injection h3 with h31 h32
  exact absurd h31 (by decide)

/-! ### Synthetic-name bookkeeping -/

theorem synNames_nil : synNames [] = [] := rfl

theorem synNames_cons (nd : Node) (ns : List Node) :
    synNames (nd :: ns) =
      if nd.synthetic then nd.name :: synNames ns else synNames ns := by
  by_cases h : nd.synthetic <;> simp [synNames, List.filter_cons, h]

theorem synNames_append (ns ms : List Node) :
    synNames (ns ++ ms) = synNames ns ++ synNames ms := by
  simp [synNames, List.filter_append]

theorem synNames_map_congr (ir : List Nat) (f g : Nat → Node)
    (h : ∀ i ∈ ir, (f i).name = (g i).name ∧ (f i).synthetic = (g i).synthetic) :
    synNames (ir.map f) = synNames (ir.map g) := by
  induction ir with
  | nil => rfl
  | cons k ks ih =>
    have hk := h k (List.mem_cons_self k ks)
    simp only [List.map_cons, synNames_cons, hk.1, hk.2]
    rw [ih (fun i hi => h i (List.mem_cons_of_mem _ hi))]

theorem synNames_checkpoint (d : Bool) (ns : List Node) :
    synNames (checkpoint_pass d ns) = synNames ns := by
  induction ns with
  | nil => rfl
  | cons nd ns ih =>
    simp only [checkpoint_pass, List.map_cons] at ih ⊢
    by_cases h : isFanInInput nd.nextInput <;>
      by_cases hs : nd.synthetic <;>
        simp [h, hs, synNames_cons, ih]

theorem setNode_name_flag (arena : List Node) (i j : Nat) (nxt : NextField)
    (ni : NextInputField) (hj : j < arena.length) :
    ((setNode arena i nxt ni).getD j default).name = (arena.getD j default).name ∧
    ((setNode arena i nxt ni).getD j default).synthetic =
      (arena.getD j default).synthetic := by
  by_cases h : i = j
  · subst h
    rw [setNode_getD_self _ _ _ _ hj]
    exact ⟨rfl, rfl⟩
  · rw [setNode_getD_ne _ _ _ _ _ h]
    exact ⟨rfl, rfl⟩

theorem wireNodes_name_flag (ids : List Nat) (nxt : NextField) (ni : NextInputField)
    (arena : List Node) (j : Nat) (hj : j < arena.length) :
    ((wireNodes ids nxt ni arena).getD j default).name = (arena.getD j default).name ∧
    ((wireNodes ids nxt ni arena).getD j default).synthetic =
      (arena.getD j default).synthetic := by
  by_cases h : j ∈ ids
  · rw [wireNodes_getD_mem _ _ _ _ _ h hj]
    exact ⟨rfl, rfl⟩
  · rw [wireNodes_getD_notMem _ _ _ _ _ h]
    exact ⟨rfl, rfl⟩

theorem rangeNames_refl (f : Nat → List String) (a : Nat) : rangeNames f a a = [] := by
  simp [rangeNames]

theorem rangeNames_snoc (f : Nat → List String) {a b : Nat} (h : a ≤ b) :
    rangeNames f a (b + 1) = rangeNames f a b ++ f b := by
  unfold rangeNames
  have e : b + 1 - a = (b - a) + 1 := by omega
  rw [e, List.range'_concat]
  have e2 : a + 1 * (b - a) = b := by omega
  rw [e2]
  simp

theorem rangeNames_append (f : Nat → List String) {a b c : Nat}
    (hab : a ≤ b) (hbc : b ≤ c) :
    rangeNames f a b ++ rangeNames f b c = rangeNames f a c := by
  obtain ⟨d, rfl⟩ : ∃ d, b = a + d := ⟨b - a, by omega⟩
  obtain ⟨e, rfl⟩ : ∃ e, c = a + d + e := ⟨c - (a + d), by omega⟩
  unfold rangeNames
  rw [← List.flatten_append, ← List.map_append]
  have e1 : a + d - a = d := by omega
  have e2 : a + d + e - (a + d) = e := by omega
  have e3 : a + d + e - a = d + e := by omega
  rw [e1, e2, e3, List.range'_append_1, Nat.add_comm e d]

theorem mem_rangeNames {f : Nat → List String} {a b : Nat} {x : String} :
    x ∈ rangeNames f a b ↔ ∃ k, a ≤ k ∧ k < b ∧ x ∈ f k := by
  unfold rangeNames
  simp only [List.mem_flatten, List.mem_map, List.mem_range'_1]
  constructor
  · rintro ⟨l, ⟨i, ⟨hi1, hi2⟩, rfl⟩, hx⟩
    exact ⟨i, hi1, by omega, hx⟩
  · rintro ⟨k, h1, h2, hx⟩
    exact ⟨f k, ⟨k, ⟨h1, by omega⟩, rfl⟩, hx⟩

theorem synNames_cons_false (nd : Node) (ns : List Node) (h : nd.synthetic = false) :
    synNames (nd :: ns) = synNames ns := by
  rw [synNames_cons, h]; simp

theorem synNames_cons_true (nd : Node) (ns : List Node) (h : nd.synthetic = true) :
    synNames (nd :: ns) = nd.name :: synNames ns := by
  rw [synNames_cons, h]; simp

/-- Every successful translation emits, among the ir-listed nodes, exactly
one `UnumMap{k}` / `UnumMapSink{k}` pair for each map-counter value `k`
consumed by the call, and one `UnumParallel{k}` / `UnumParallelSink{k}`
pair for each parallel-counter value consumed — as a multiset identity on
the ghost-flagged synthetic names. -/
theorem translateSynAll : ∀ fuel : Nat,
    (∀ (resolver : List (String × String)) (sm : StateMachine) (nm : String)
        (ctx : Ctx) (res : TRes) (ctx' : Ctx),
        translate_state_machine_aux fuel resolver sm nm ctx = .ok (res, ctx') →
        (synNames (res.ir.map (fun i => ctx'.arena.getD i default)) : Multiset String) =
          (rangeNames mapPairNames ctx.mapCounter ctx'.mapCounter : Multiset String) +
          (rangeNames parallelPairNames ctx.parallelCounter ctx'.parallelCounter : Multiset String)) ∧
    (∀ (resolver : List (String × String)) (sm : StateMachine)
        (ctx : Ctx) (res : TRes) (ctx' : Ctx),
        translate_state_machine fuel resolver sm ctx = .ok (res, ctx') →
        (synNames (res.ir.map (fun i => ctx'.arena.getD i default)) : Multiset String) =
          (rangeNames mapPairNames ctx.mapCounter ctx'.mapCounter : Multiset String) +
          (rangeNames parallelPairNames ctx.parallelCounter ctx'.parallelCounter : Multiset String)) ∧
    (∀ (resolver : List (String × String)) (bs : List StateMachine)
        (ctx : Ctx) (rs : List TRes) (ctx' : Ctx),
        translate_branches fuel resolver bs ctx = .ok (rs, ctx') →
        (synNames (((rs.map TRes.ir).flatten).map (fun i => ctx'.arena.getD i default)) : Multiset String) =
          (rangeNames mapPairNames ctx.mapCounter ctx'.mapCounter : Multiset String) +
          (rangeNames parallelPairNames ctx.parallelCounter ctx'.parallelCounter : Multiset String)) := by
  intro fuel
  induction fuel with
  | zero =>
    refine ⟨?_, ?_, ?_⟩
    · intro resolver sm nm ctx res ctx' h; cases h
    · intro resolver sm ctx res ctx' h; cases h
    · intro resolver bs ctx rs ctx' h
      cases bs with
      | nil =>
        simp only [translate_branches] at h
        rw [Except.ok.injEq, Prod.mk.injEq] at h
        obtain ⟨rfl, rfl⟩ := h
        simp [rangeNames_refl, synNames]
      | cons b bs2 => cases h
  | succ fuel ih =>
    obtain ⟨ihAux, ihMach, ihBr⟩ := ih
    refine ⟨?_, ?_, ?_⟩
    · intro resolver sm nm ctx res ctx' h
      simp only [translate_state_machine_aux] at h
      cases hl : lookupState sm nm with
      | none => simp only [hl] at h; cases h
      | some st =>
        simp only [hl] at h
        cases st with
        | task resource endFlag nextName =>
          cases hr : get_state_unum_function_name resolver resource with
          | error e => simp only [hr] at h; cases h
          | ok uname =>
            simp only [hr] at h
            by_cases hend : endFlag = some true
            · rw [if_pos hend] at h
              simp only [pushNode] at h
              rw [Except.ok.injEq, Prod.mk.injEq] at h
              obtain ⟨rfl, rfl⟩ := h
              dsimp only
              rw [rangeNames_refl, rangeNames_refl]
              simp only [List.map_cons, List.map_nil, nodeGetD_concat_self]
              rw [synNames_cons_false _ _ rfl]
              simp [synNames]
            · rw [if_neg hend] at h
              cases nextName with
              | none => cases h
              | some nxt =>
                cases hrec : translate_state_machine_aux fuel resolver sm nxt ctx with
                | error e => simp only [hrec] at h; cases h
                | ok p =>
                  obtain ⟨nextRes, ctx1⟩ := p
                  simp only [hrec, pushNode] at h
                  rw [Except.ok.injEq, Prod.mk.injEq] at h
                  obtain ⟨rfl, rfl⟩ := h
                  have A := ihAux resolver sm nxt ctx nextRes ctx1 hrec
                  have AI := (translateInvAll fuel).1 resolver sm nxt ctx nextRes ctx1 hrec
                  dsimp only
                  simp only [List.map_cons, nodeGetD_concat_self]
                  rw [synNames_cons_false _ _ rfl,
                    List.map_congr_left
                      (fun j hj => nodeGetD_append_lt _ _ j (AI.irUb j hj))]
                  exact A
        | mapState iterator nextName =>
          cases hm : translate_state_machine fuel resolver iterator ctx with
          | error e => simp only [hm] at h; cases h
          | ok p =>
            obtain ⟨iterRes, ctx1⟩ := p
            simp only [hm, pushNode] at h
            have A := ihMach resolver iterator ctx iterRes ctx1 hm
            have AI := (translateInvAll fuel).2.1 resolver iterator ctx iterRes ctx1 hm
            have hExU := AI.exitUb
            have hExL := AI.exitLb
            have hMle := AI.mapLe
            have hPle := AI.parLe
            cases nextName with
            | none =>
              dsimp only at h
              rw [Except.ok.injEq, Prod.mk.injEq] at h
              obtain ⟨rfl, rfl⟩ := h
              generalize hME : ({ name := mapEntryName ctx1.mapCounter, next := some (.one (nodeName ctx1 iterRes.entry)), nextInput := some .mapInput, synthetic := true } : Node) = ME
              generalize hMS : ({ name := mapSinkName ctx1.mapCounter, synthetic := true } : Node) = MS
              generalize hNX : NextField.one (mapSinkName ctx1.mapCounter) = NX
              generalize hNI : NextInputField.fanIn [nodeName ctx1 iterRes.exit ++ "-unumIndex-*"] = NI
              have hMEsyn : ME.synthetic = true := by rw [← hME]
              have hMSsyn : MS.synthetic = true := by rw [← hMS]
              have hMEname : ME.name = mapEntryName ctx1.mapCounter := by rw [← hME]
              have hMSname : MS.name = mapSinkName ctx1.mapCounter := by rw [← hMS]
              have e2 : (ctx1.arena ++ [ME]).length = ctx1.arena.length + 1 := push_len _ _
              have hne1 : iterRes.exit ≠ ctx1.arena.length := by omega
              have hlt1 : ctx1.arena.length < (ctx1.arena ++ [ME]).length := by omega
              have hne2 : iterRes.exit ≠ (ctx1.arena ++ [ME]).length := by omega
              have hcong : ∀ j ∈ iterRes.ir,
                  (((setNode ((ctx1.arena ++ [ME]) ++ [MS]) iterRes.exit NX NI).getD j default)).name =
                    ((ctx1.arena.getD j default)).name ∧
                  (((setNode ((ctx1.arena ++ [ME]) ++ [MS]) iterRes.exit NX NI).getD j default)).synthetic =
                    ((ctx1.arena.getD j default)).synthetic := by
                intro j hj
                have hjlt : j < ctx1.arena.length := AI.irUb j hj
                have hjlt2 : j < (ctx1.arena ++ [ME]).length := by omega
                have h1 := setNode_name_flag ((ctx1.arena ++ [ME]) ++ [MS]) iterRes.exit j NX NI
                  (by rw [push_len]; omega)
                rw [nodeGetD_append_lt _ _ _ hjlt2, nodeGetD_append_lt _ _ _ hjlt] at h1
                exact h1
              dsimp only
              simp only [List.map_cons, List.map_append, List.map_nil]
              rw [setNode_getD_ne _ _ _ _ _ hne1, nodeGetD_append_lt _ _ _ hlt1,
                nodeGetD_concat_self,
                setNode_getD_ne _ _ _ _ _ hne2, nodeGetD_concat_self]
              rw [synNames_append, synNames_cons_true _ _ hMEsyn,
                synNames_map_congr iterRes.ir _ _ hcong,
                synNames_cons_true _ _ hMSsyn, synNames_nil, hMEname, hMSname]
              rw [rangeNames_snoc mapPairNames hMle]
              rw [show mapPairNames ctx1.mapCounter =
                    [mapEntryName ctx1.mapCounter] ++ [mapSinkName ctx1.mapCounter] from rfl]
              rw [← List.singleton_append]
              simp only [← Multiset.coe_add]
              rw [A]
              abel
            | some nxt =>
              dsimp only at h
              split at h
              · cases h
              · rename_i nextRes ctx4 heq
                revert heq h
                generalize hME : ({ name := mapEntryName ctx1.mapCounter, next := some (.one (nodeName ctx1 iterRes.entry)), nextInput := some .mapInput, synthetic := true } : Node) = ME
                generalize hMS : ({ name := mapSinkName ctx1.mapCounter, synthetic := true } : Node) = MS
                generalize hNX : NextField.one (mapSinkName ctx1.mapCounter) = NX
                generalize hNI : NextInputField.fanIn [nodeName ctx1 iterRes.exit ++ "-unumIndex-*"] = NI
                intro heq h
                have B := ihAux resolver sm nxt _ nextRes ctx4 heq
                have BI := (translateInvAll fuel).1 resolver sm nxt _ nextRes ctx4 heq
                rw [Except.ok.injEq, Prod.mk.injEq] at h
                obtain ⟨rfl, rfl⟩ := h
                have hMEsyn : ME.synthetic = true := by rw [← hME]
                have hMSsyn : MS.synthetic = true := by rw [← hMS]
                have hMEname : ME.name = mapEntryName ctx1.mapCounter := by rw [← hME]
                have hMSname : MS.name = mapSinkName ctx1.mapCounter := by rw [← hMS]
                have e2 : (ctx1.arena ++ [ME]).length = ctx1.arena.length + 1 := push_len _ _
                have e3 : (setNode ((ctx1.arena ++ [ME]) ++ [MS]) iterRes.exit NX NI).length =
                    ctx1.arena.length + 1 + 1 := by
                  rw [setNode_length, push_len, e2]
                have hBlen := BI.lenLe
                have hBmap := BI.mapLe
                have hBpar := BI.parLe
                have hBfr := BI.frame
                have hBirL := BI.irLb
                dsimp only at hBlen hBmap hBpar hBfr hBirL B
                rw [e3] at hBlen hBfr hBirL
                have hne1 : iterRes.exit ≠ ctx1.arena.length := by omega
                have hlt1 : ctx1.arena.length < (ctx1.arena ++ [ME]).length := by omega
                have hne2 : iterRes.exit ≠ (ctx1.arena ++ [ME]).length := by omega
                have hcong1 : ∀ j ∈ (ctx1.arena.length :: iterRes.ir ++ [(ctx1.arena ++ [ME]).length]),
                    (((setNode ctx4.arena ((ctx1.arena ++ [ME]).length)
                        (NextField.one (nodeName ctx4 nextRes.entry)) NextInputField.scalar).getD j default)).name =
                      (((setNode ((ctx1.arena ++ [ME]) ++ [MS]) iterRes.exit NX NI).getD j default)).name ∧
                    (((setNode ctx4.arena ((ctx1.arena ++ [ME]).length)
                        (NextField.one (nodeName ctx4 nextRes.entry)) NextInputField.scalar).getD j default)).synthetic =
                      (((setNode ((ctx1.arena ++ [ME]) ++ [MS]) iterRes.exit NX NI).getD j default)).synthetic := by
                  intro j hj
                  have hjb : j < ctx1.arena.length + 1 + 1 := by
                    rcases List.mem_cons.1 hj with rfl | hj
                    · omega
                    · rcases List.mem_append.1 hj with hj | hj
                      · have := AI.irUb j hj; omega
                      · rcases List.mem_singleton.1 hj with rfl; omega
                  have h1 := setNode_name_flag ctx4.arena ((ctx1.arena ++ [ME]).length) j
                    (NextField.one (nodeName ctx4 nextRes.entry)) NextInputField.scalar (by omega)
                  rw [hBfr j hjb] at h1
                  exact h1
                have hcong2 : ∀ j ∈ nextRes.ir,
                    (setNode ctx4.arena ((ctx1.arena ++ [ME]).length)
                        (NextField.one (nodeName ctx4 nextRes.entry)) NextInputField.scalar).getD j default =
                      ctx4.arena.getD j default := by
                  intro j hj
                  have := hBirL j hj
                  exact setNode_getD_ne _ _ _ _ _ (by omega)
                have hcong : ∀ j ∈ iterRes.ir,
                    (((setNode ((ctx1.arena ++ [ME]) ++ [MS]) iterRes.exit NX NI).getD j default)).name =
                      ((ctx1.arena.getD j default)).name ∧
                    (((setNode ((ctx1.arena ++ [ME]) ++ [MS]) iterRes.exit NX NI).getD j default)).synthetic =
                      ((ctx1.arena.getD j default)).synthetic := by
                  intro j hj
                  have hjlt : j < ctx1.arena.length := AI.irUb j hj
                  have hjlt2 : j < (ctx1.arena ++ [ME]).length := by omega
                  have h1 := setNode_name_flag ((ctx1.arena ++ [ME]) ++ [MS]) iterRes.exit j NX NI
                    (by rw [push_len]; omega)
                  rw [nodeGetD_append_lt _ _ _ hjlt2, nodeGetD_append_lt _ _ _ hjlt] at h1
                  exact h1
                have hMle1 : ctx.mapCounter ≤ ctx1.mapCounter + 1 := by omega
                dsimp only
                rw [List.map_append, synNames_append]
                rw [synNames_map_congr _ _ _ hcong1]
                rw [List.map_congr_left hcong2]
                simp only [List.map_cons, List.map_append, List.map_nil]
                rw [setNode_getD_ne _ _ _ _ _ hne1, nodeGetD_append_lt _ _ _ hlt1,
                  nodeGetD_concat_self,
                  setNode_getD_ne _ _ _ _ _ hne2, nodeGetD_concat_self]
                rw [synNames_append, synNames_cons_true _ _ hMEsyn,
                  synNames_map_congr iterRes.ir _ _ hcong,
                  synNames_cons_true _ _ hMSsyn, synNames_nil, hMEname, hMSname]
                rw [← rangeNames_append mapPairNames hMle1 hBmap,
                  rangeNames_snoc mapPairNames hMle,
                  ← rangeNames_append parallelPairNames hPle hBpar]
                rw [show mapPairNames ctx1.mapCounter =
                      [mapEntryName ctx1.mapCounter] ++ [mapSinkName ctx1.mapCounter] from rfl]
                rw [← List.singleton_append]
                simp only [← Multiset.coe_add]
                rw [A, B]
                abel
        | parallel branches nextName =>
          cases hbr : translate_branches fuel resolver branches ctx with
          | error e => simp only [hbr] at h; cases h
          | ok p =>
            obtain ⟨rs, ctx1⟩ := p
            simp only [hbr, pushNode] at h
            have A := ihBr resolver branches ctx rs ctx1 hbr
            have AI := (translateInvAll fuel).2.2 resolver branches ctx rs ctx1 hbr
            have hMle := AI.mapLe
            have hPle := AI.parLe
            cases nextName with
            | none =>
              dsimp only at h
              rw [Except.ok.injEq, Prod.mk.injEq] at h
              obtain ⟨rfl, rfl⟩ := h
              generalize hPE : ({ name := parallelEntryName ctx1.parallelCounter, next := some (.many (rs.map (fun r => nodeName ctx1 r.entry))), nextInput := some .scalar, synthetic := true } : Node) = PE
              generalize hPS : ({ name := parallelSinkName ctx1.parallelCounter, synthetic := true } : Node) = PS
              generalize hNX : NextField.one (parallelSinkName ctx1.parallelCounter) = NX
              generalize hNI : NextInputField.fanIn (parallel_fan_in_vals (rs.map (fun r => nodeName ctx1 r.exit))) = NI
              have hPEsyn : PE.synthetic = true := by rw [← hPE]
              have hPSsyn : PS.synthetic = true := by rw [← hPS]
              have hPEname : PE.name = parallelEntryName ctx1.parallelCounter := by rw [← hPE]
              have hPSname : PS.name = parallelSinkName ctx1.parallelCounter := by rw [← hPS]
              have e2 : (ctx1.arena ++ [PE]).length = ctx1.arena.length + 1 := push_len _ _
              have hnotE : ctx1.arena.length ∉ rs.map (fun r => r.exit) := by
                intro hmem
                obtain ⟨r, hr, hrx⟩ := List.mem_map.1 hmem
                have := AI.exitUb r hr; omega
              have hnotS : (ctx1.arena ++ [PE]).length ∉ rs.map (fun r => r.exit) := by
                intro hmem
                obtain ⟨r, hr, hrx⟩ := List.mem_map.1 hmem
                have := AI.exitUb r hr; omega
              have hlt1 : ctx1.arena.length < (ctx1.arena ++ [PE]).length := by omega
              have hcong : ∀ j ∈ (rs.map TRes.ir).flatten,
                  (((wireNodes (rs.map (fun r => r.exit)) NX NI
                      ((ctx1.arena ++ [PE]) ++ [PS])).getD j default)).name =
                    ((ctx1.arena.getD j default)).name ∧
                  (((wireNodes (rs.map (fun r => r.exit)) NX NI
                      ((ctx1.arena ++ [PE]) ++ [PS])).getD j default)).synthetic =
                    ((ctx1.arena.getD j default)).synthetic := by
                intro j hj
                obtain ⟨l, hl2, hjl⟩ := List.mem_flatten.1 hj
                obtain ⟨r, hr, rfl⟩ := List.mem_map.1 hl2
                have hjlt : j < ctx1.arena.length := AI.irUb r hr j hjl
                have hjlt2 : j < (ctx1.arena ++ [PE]).length := by omega
                have h1 := wireNodes_name_flag (rs.map (fun r => r.exit)) NX NI
                  ((ctx1.arena ++ [PE]) ++ [PS]) j (by rw [push_len]; omega)
                rw [nodeGetD_append_lt _ _ _ hjlt2, nodeGetD_append_lt _ _ _ hjlt] at h1
                exact h1
              dsimp only
              simp only [List.map_cons, List.map_append, List.map_nil]
              rw [wireNodes_getD_notMem _ _ _ _ _ hnotE, nodeGetD_append_lt _ _ _ hlt1,
                nodeGetD_concat_self,
                wireNodes_getD_notMem _ _ _ _ _ hnotS, nodeGetD_concat_self]
              rw [synNames_append, synNames_cons_true _ _ hPEsyn,
                synNames_map_congr _ _ _ hcong,
                synNames_cons_true _ _ hPSsyn, synNames_nil, hPEname, hPSname]
              rw [rangeNames_snoc parallelPairNames hPle]
              rw [show parallelPairNames ctx1.parallelCounter =
                    [parallelEntryName ctx1.parallelCounter] ++ [parallelSinkName ctx1.parallelCounter] from rfl]
              rw [← List.singleton_append]
              simp only [← Multiset.coe_add]
              rw [A]
              abel
            | some nxt =>
              dsimp only at h
              split at h
              · cases h
              · rename_i nextRes ctx4 heq
                revert heq h
                generalize hPE : ({ name := parallelEntryName ctx1.parallelCounter, next := some (.many (rs.map (fun r => nodeName ctx1 r.entry))), nextInput := some .scalar, synthetic := true } : Node) = PE
                generalize hPS : ({ name := parallelSinkName ctx1.parallelCounter, synthetic := true } : Node) = PS
                generalize hNX : NextField.one (parallelSinkName ctx1.parallelCounter) = NX
                generalize hNI : NextInputField.fanIn (parallel_fan_in_vals (rs.map (fun r => nodeName ctx1 r.exit))) = NI
                intro heq h
                have B := ihAux resolver sm nxt _ nextRes ctx4 heq
                have BI := (translateInvAll fuel).1 resolver sm nxt _ nextRes ctx4 heq
                rw [Except.ok.injEq, Prod.mk.injEq] at h
                obtain ⟨rfl, rfl⟩ := h
                have hPEsyn : PE.synthetic = true := by rw [← hPE]
                have hPSsyn : PS.synthetic = true := by rw [← hPS]
                have hPEname : PE.name = parallelEntryName ctx1.parallelCounter := by rw [← hPE]
                have hPSname : PS.name = parallelSinkName ctx1.parallelCounter := by rw [← hPS]
                have e2 : (ctx1.arena ++ [PE]).length = ctx1.arena.length + 1 := push_len _ _
                have e3 : (wireNodes (rs.map (fun r => r.exit)) NX NI
                    ((ctx1.arena ++ [PE]) ++ [PS])).length = ctx1.arena.length + 1 + 1 := by
                  rw [wireNodes_length, push_len, e2]
                have hBlen := BI.lenLe
                have hBmap := BI.mapLe
                have hBpar := BI.parLe
                have hBfr := BI.frame
                have hBirL := BI.irLb
                dsimp only at hBlen hBmap hBpar hBfr hBirL B
                rw [e3] at hBlen hBfr hBirL
                have hnotE : ctx1.arena.length ∉ rs.map (fun r => r.exit) := by
                  intro hmem
                  obtain ⟨r, hr, hrx⟩ := List.mem_map.1 hmem
                  have := AI.exitUb r hr; omega
                have hnotS : (ctx1.arena ++ [PE]).length ∉ rs.map (fun r => r.exit) := by
                  intro hmem
                  obtain ⟨r, hr, hrx⟩ := List.mem_map.1 hmem
                  have := AI.exitUb r hr; omega
                have hlt1 : ctx1.arena.length < (ctx1.arena ++ [PE]).length := by omega
                have hcong1 : ∀ j ∈ (ctx1.arena.length :: (rs.map TRes.ir).flatten ++ [(ctx1.arena ++ [PE]).length]),
                    (((setNode ctx4.arena ((ctx1.arena ++ [PE]).length)
                        (NextField.one (nodeName ctx4 nextRes.entry)) NextInputField.scalar).getD j default)).name =
                      (((wireNodes (rs.map (fun r => r.exit)) NX NI
                        ((ctx1.arena ++ [PE]) ++ [PS])).getD j default)).name ∧
                    (((setNode ctx4.arena ((ctx1.arena ++ [PE]).length)
                        (NextField.one (nodeName ctx4 nextRes.entry)) NextInputField.scalar).getD j default)).synthetic =
                      (((wireNodes (rs.map (fun r => r.exit)) NX NI
                        ((ctx1.arena ++ [PE]) ++ [PS])).getD j default)).synthetic := by
                  intro j hj
                  have hjb : j < ctx1.arena.length + 1 + 1 := by
                    rcases List.mem_cons.1 hj with rfl | hj
                    · omega
                    · rcases List.mem_append.1 hj with hj | hj
                      · obtain ⟨l, hl2, hjl⟩ := List.mem_flatten.1 hj
                        obtain ⟨r, hr, rfl⟩ := List.mem_map.1 hl2
                        have := AI.irUb r hr j hjl; omega
                      · rcases List.mem_singleton.1 hj with rfl; omega
                  have h1 := setNode_name_flag ctx4.arena ((ctx1.arena ++ [PE]).length) j
                    (NextField.one (nodeName ctx4 nextRes.entry)) NextInputField.scalar (by omega)
                  rw [hBfr j hjb] at h1
                  exact h1
                have hcong2 : ∀ j ∈ nextRes.ir,
                    (setNode ctx4.arena ((ctx1.arena ++ [PE]).length)
                        (NextField.one (nodeName ctx4 nextRes.entry)) NextInputField.scalar).getD j default =
                      ctx4.arena.getD j default := by
                  intro j hj
                  have := hBirL j hj
                  exact setNode_getD_ne _ _ _ _ _ (by omega)
                have hcong : ∀ j ∈ (rs.map TRes.ir).flatten,
                    (((wireNodes (rs.map (fun r => r.exit)) NX NI
                        ((ctx1.arena ++ [PE]) ++ [PS])).getD j default)).name =
                      ((ctx1.arena.getD j default)).name ∧
                    (((wireNodes (rs.map (fun r => r.exit)) NX NI
                        ((ctx1.arena ++ [PE]) ++ [PS])).getD j default)).synthetic =
                      ((ctx1.arena.getD j default)).synthetic := by
                  intro j hj
                  obtain ⟨l, hl2, hjl⟩ := List.mem_flatten.1 hj
                  obtain ⟨r, hr, rfl⟩ := List.mem_map.1 hl2
                  have hjlt : j < ctx1.arena.length := AI.irUb r hr j hjl
                  have hjlt2 : j < (ctx1.arena ++ [PE]).length := by omega
                  have h1 := wireNodes_name_flag (rs.map (fun r => r.exit)) NX NI
                    ((ctx1.arena ++ [PE]) ++ [PS]) j (by rw [push_len]; omega)
                  rw [nodeGetD_append_lt _ _ _ hjlt2, nodeGetD_append_lt _ _ _ hjlt] at h1
                  exact h1
                have hPle1 : ctx.parallelCounter ≤ ctx1.parallelCounter + 1 := by omega
                dsimp only
                rw [List.map_append, synNames_append]
                rw [synNames_map_congr _ _ _ hcong1]
                rw [List.map_congr_left hcong2]
                simp only [List.map_cons, List.map_append, List.map_nil]
                rw [wireNodes_getD_notMem _ _ _ _ _ hnotE, nodeGetD_append_lt _ _ _ hlt1,
                  nodeGetD_concat_self,
                  wireNodes_getD_notMem _ _ _ _ _ hnotS, nodeGetD_concat_self]
                rw [synNames_append, synNames_cons_true _ _ hPEsyn,
                  synNames_map_congr _ _ _ hcong,
                  synNames_cons_true _ _ hPSsyn, synNames_nil, hPEname, hPSname]
                rw [← rangeNames_append parallelPairNames hPle1 hBpar,
                  rangeNames_snoc parallelPairNames hPle,
                  ← rangeNames_append mapPairNames hMle hBmap]
                rw [show parallelPairNames ctx1.parallelCounter =
                      [parallelEntryName ctx1.parallelCounter] ++ [parallelSinkName ctx1.parallelCounter] from rfl]
                rw [← List.singleton_append]
                simp only [← Multiset.coe_add]
                rw [A, B]
                abel
    · intro resolver sm ctx res ctx' h
      simp only [translate_state_machine] at h
      cases hl : lookupState sm sm.startAt with
      | none => simp only [hl] at h; cases h
      | some st =>
        simp only [hl] at h
        exact ihAux resolver sm sm.startAt ctx res ctx' h
    · intro resolver bs ctx rs ctx' h
      cases bs with
      | nil =>
        simp only [translate_branches] at h
        rw [Except.ok.injEq, Prod.mk.injEq] at h
        obtain ⟨rfl, rfl⟩ := h
        simp [rangeNames_refl, synNames]
      | cons b bs2 =>
        simp only [translate_branches] at h
        cases hm : translate_state_machine fuel resolver b ctx with
        | error e => simp only [hm] at h; cases h
        | ok p =>
          obtain ⟨r1, ctx1⟩ := p
          simp only [hm] at h
          cases hb : translate_branches fuel resolver bs2 ctx1 with
          | error e => simp only [hb] at h; cases h
          | ok q =>
            obtain ⟨rs2, ctx2⟩ := q
            simp only [hb] at h
            rw [Except.ok.injEq, Prod.mk.injEq] at h
            obtain ⟨rfl, rfl⟩ := h
            have S1 := ihMach resolver b ctx r1 ctx1 hm
            have S2 := ihBr resolver bs2 ctx1 rs2 ctx2 hb
            have AI1 := (translateInvAll fuel).2.1 resolver b ctx r1 ctx1 hm
            have BI := (translateInvAll fuel).2.2 resolver bs2 ctx1 rs2 ctx2 hb
            simp only [List.map_cons, List.flatten_cons, List.map_append, synNames_append]
            rw [List.map_congr_left (fun j hj => BI.frame j (AI1.irUb j hj)),
              ← Multiset.coe_add, S1, S2,
              ← rangeNames_append mapPairNames AI1.mapLe BI.mapLe,
              ← rangeNames_append parallelPairNames AI1.parLe BI.parLe]
            simp only [← Multiset.coe_add]
            abel

theorem rangeNames_of_le (f : Nat → List String) {a b : Nat} (h : b ≤ a) :
    rangeNames f a b = [] := by
  unfold rangeNames
  have e : b - a = 0 := by omega
  rw [e]
  rfl

theorem nodup_pair_ranges (f : Nat → List String)
    (hpair : ∀ k, (f k).Nodup)
    (hinj : ∀ j k x, x ∈ f j → x ∈ f k → j = k)
    (a b : Nat) : (rangeNames f a b).Nodup := by
  by_cases hab : a ≤ b
  · obtain ⟨k, rfl⟩ : ∃ k, b = a + k := ⟨b - a, by omega⟩
    clear hab
    induction k with
    | zero => rw [Nat.add_zero, rangeNames_refl]; exact List.nodup_nil
    | succ k ih =>
      have e : a + (k + 1) = (a + k) + 1 := by omega
      rw [e, rangeNames_snoc f (by omega)]
      refine List.Nodup.append ih (hpair _) ?_
      intro x hx hx2
      obtain ⟨j, hj1, hj2, hjx⟩ := mem_rangeNames.1 hx
      have := hinj j (a + k) x hjx hx2
      omega
  · rw [rangeNames_of_le f (by omega)]
    exact List.nodup_nil

theorem mapPairNames_nodup (k : Nat) : (mapPairNames k).Nodup := by
  simp [mapPairNames, mapEntryName_ne_mapSinkName k k]

theorem parallelPairNames_nodup (k : Nat) : (parallelPairNames k).Nodup := by
  simp [parallelPairNames, parallelEntryName_ne_parallelSinkName k k]

theorem mapPairNames_mem_inj (j k : Nat) (x : String)
    (hj : x ∈ mapPairNames j) (hk : x ∈ mapPairNames k) : j = k := by
  simp only [mapPairNames, List.mem_cons, List.not_mem_nil, or_false] at hj hk
  rcases hj with rfl | rfl <;> rcases hk with h | h
  · exact mapEntryName_inj h
  · exact absurd h (mapEntryName_ne_mapSinkName j k)
  · exact absurd h.symm (mapEntryName_ne_mapSinkName k j)
  · exact mapSinkName_inj h

theorem parallelPairNames_mem_inj (j k : Nat) (x : String)
    (hj : x ∈ parallelPairNames j) (hk : x ∈ parallelPairNames k) : j = k := by
  simp only [parallelPairNames, List.mem_cons, List.not_mem_nil, or_false] at hj hk
  rcases hj with rfl | rfl <;> rcases hk with h | h
  · exact parallelEntryName_inj h
  · exact absurd h (parallelEntryName_ne_parallelSinkName j k)
  · exact absurd h.symm (parallelEntryName_ne_parallelSinkName k j)
  · exact parallelSinkName_inj h

theorem map_parallel_ranges_disjoint (a b c d : Nat) :
    (rangeNames mapPairNames a b).Disjoint (rangeNames parallelPairNames c d) := by
  intro x hx hy
  obtain ⟨j, hj1, hj2, hjx⟩ := mem_rangeNames.1 hx
  obtain ⟨k, hk1, hk2, hkx⟩ := mem_rangeNames.1 hy
  simp only [mapPairNames, parallelPairNames, List.mem_cons, List.not_mem_nil,
    or_false] at hjx hkx
  rcases hjx with rfl | rfl <;> rcases hkx with h | h
  · exact mapEntryName_ne_parallelEntryName j k h
  · exact mapEntryName_ne_parallelSinkName j k h
  · exact mapSinkName_ne_parallelEntryName j k h
  · exact mapSinkName_ne_parallelSinkName j k h

/-- C4 (amended): in every successful compilation run, the names of the
synthetic barrier nodes (the `UnumMap{n}` / `UnumMapSink{n}` /
`UnumParallel{n}` / `UnumParallelSink{n}` entries the compiler fabricates)
are pairwise distinct: each Map/Parallel allocation consumes a fresh
counter value, the counter never repeats within a run, and the four name
families never collide. (Names of declared Task states are emitted
verbatim and carry no such guarantee — see the counterexample.) -/
theorem c4_synthetic_names_distinct
    (fuel : Nat) (resolver : List (String × String)) (d : Bool)
    (sm : StateMachine) (cnt : Counters) (ns : List Node) (c' : Counters)
    (h : compileRun fuel resolver d sm cnt = .ok (ns, c')) :
    (synNames ns).Nodup := by
  unfold compileRun at h
  cases htr : translate_state_machine fuel resolver sm
      { mapCounter := cnt.mapC, parallelCounter := cnt.parallelC, arena := [] } with
  | error e => rw [htr] at h; cases h
  | ok p =>
    obtain ⟨res, ctx⟩ := p
    rw [htr] at h
    rw [Except.ok.injEq, Prod.mk.injEq] at h
    obtain ⟨rfl, rfl⟩ := h
    rw [synNames_checkpoint]
    have A := (translateSynAll fuel).2.1 resolver sm _ res ctx htr
    rw [Multiset.coe_add, Multiset.coe_eq_coe] at A
    exact A.nodup_iff.2
      (List.Nodup.append
        (nodup_pair_ranges mapPairNames mapPairNames_nodup mapPairNames_mem_inj _ _)
        (nodup_pair_ranges parallelPairNames parallelPairNames_nodup
          parallelPairNames_mem_inj _ _)
        (map_parallel_ranges_disjoint _ _ _ _))

/-- Witness for C4: the nested-Map machine compiles successfully to the
concrete IR `exampleNestedIR`, and its four synthetic barrier names are
pairwise distinct. -/
theorem c4_synthetic_names_distinct_witness :
    compileRun 10 [] false exampleNestedMap { mapC := 0, parallelC := 0 } =
      .ok (exampleNestedIR, { mapC := 2, parallelC := 0 }) ∧
    (synNames exampleNestedIR).Nodup :=
  ⟨by decide,
   c4_synthetic_names_distinct 10 [] false exampleNestedMap
     { mapC := 0, parallelC := 0 } exampleNestedIR { mapC := 2, parallelC := 0 }
     (by decide)⟩

end Unum
